import Mathlib

/-!
Verification of the HHVM debugger wrapper (src/debugger.ts).

The wrapper is a protocol bridge between a debug client speaking
Content-Length framed JSON over stdin/stdout and an HHVM target speaking
NUL-terminated JSON over a socket or a child-process stream.  We embed the
bridge as a deterministic state machine over character lists; the external
JSON codec (JSON.parse / JSON.stringify) is kept abstract as parameters,
since it is a platform builtin, not code of this repository.
-/

namespace HHVMDebugger

/-- JavaScript strings are modelled as lists of characters. -/
abbrev Chars := List Char

/-- The NUL character terminating each target-side message. -/
def NUL : Char := Char.ofNat 0

/-- The frame separator constant TWO_CRLF from the source. -/
def TWO_CRLF : Chars := ['\r', '\n', '\r', '\n']

/-- The literal part of the CONTENT_LENGTH_PATTERN regex before the digits. -/
def clHead : Chars :=
  ['C', 'o', 'n', 't', 'e', 'n', 't', '-', 'L', 'e', 'n', 'g', 't', 'h', ':', ' ']

/-- The legacy Nuclide command marker translated by the bridge. -/
def nuclideMark : Chars := ['n', 'u', 'c', 'l', 'i', 'd', 'e', '_']

/-- The generic fb command marker substituted for the legacy one. -/
def fbMark : Chars := ['f', 'b', '_']

/-- Decimal digit character for a value below ten. -/
def digitChar (n : Nat) : Char := Char.ofNat (48 + n)

/-- Numeric value of a decimal digit character. -/
def charVal (c : Char) : Nat := c.toNat - 48

/-- Value of a decimal digit string, most significant digit first
(the semantics of parseInt(s, 10) on an all-digit string). -/
def digitsVal (s : Chars) : Nat := s.foldl (fun a c => 10 * a + charVal c) 0

/-- Decimal digits of a number, most significant first; fuel-based so that it
is structurally recursive and computable by the kernel. -/
def natDigitsCore : Nat → Nat → Chars
  | 0, _ => []
  | _ + 1, 0 => []
  | fuel + 1, n + 1 => natDigitsCore fuel ((n + 1) / 10) ++ [digitChar ((n + 1) % 10)]

/-- Decimal rendering of a number as JavaScript template interpolation does. -/
def natDigits (n : Nat) : Chars := if n = 0 then ['0'] else natDigitsCore n n

/-- First index at which pat occurs as a contiguous substring (String.indexOf
restricted to found/not-found as an Option). -/
def findSubstr (pat : Chars) : Chars → Option Nat
  | [] => if pat.isPrefixOf ([] : Chars) then some 0 else none
  | c :: rest =>
    if pat.isPrefixOf (c :: rest) then some 0
    else (findSubstr pat rest).map (· + 1)

/-- The regex match Content-Length: (\d+): searches every start position left
to right; at a position where the literal head matches, the capture is the
maximal nonempty digit run following it, else the search continues. -/
def matchCL : Chars → Option Chars
  | [] => none
  | c :: rest =>
    if clHead.isPrefixOf (c :: rest) then
      let ds := ((c :: rest).drop clHead.length).takeWhile Char.isDigit
      if ds.isEmpty then matchCL rest else some ds
    else matchCL rest

/-- JavaScript String.replace with a string pattern: replaces the first
occurrence only. -/
def replaceFirst (pat repl : Chars) : Chars → Chars
  | [] => if pat.isPrefixOf ([] : Chars) then repl else []
  | c :: rest =>
    if pat.isPrefixOf (c :: rest) then repl ++ (c :: rest).drop pat.length
    else c :: replaceFirst pat repl rest

section BasicLemmas

lemma digitsVal_append_singleton (s : Chars) (c : Char) :
    digitsVal (s ++ [c]) = 10 * digitsVal s + charVal c := by
  simp [digitsVal, List.foldl_append]

lemma charVal_digitChar {d : Nat} (hd : d < 10) : charVal (digitChar d) = d := by
  interval_cases d <;> rfl

lemma isDigit_digitChar {d : Nat} (hd : d < 10) : (digitChar d).isDigit = true := by
  interval_cases d <;> rfl

lemma digitsVal_natDigitsCore : ∀ (fuel n : Nat), n ≤ fuel →
    digitsVal (natDigitsCore fuel n) = n := by
  intro fuel
  induction fuel using Nat.strong_induction_on with
  | _ fuel ih =>
    intro n hn
    match fuel, n with
    | 0, n =>
      interval_cases n
      rfl
    | fuel + 1, 0 => rfl
    | fuel + 1, n + 1 =>
      rw [natDigitsCore, digitsVal_append_singleton,
        charVal_digitChar (Nat.mod_lt _ (by norm_num)),
        ih fuel (Nat.lt_succ_self _) ((n + 1) / 10)
          (by
            have h1 : (n + 1) / 10 < n + 1 := Nat.div_lt_self (Nat.succ_pos n) (by norm_num)
            omega)]
      omega

lemma digitsVal_natDigits (n : Nat) : digitsVal (natDigits n) = n := by
  by_cases h : n = 0
  · subst h; rfl
  · simp only [natDigits, if_neg h]
    exact digitsVal_natDigitsCore n n le_rfl

lemma natDigitsCore_all_digits : ∀ (fuel n : Nat), ∀ c ∈ natDigitsCore fuel n,
    c.isDigit = true := by
  intro fuel
  induction fuel using Nat.strong_induction_on with
  | _ fuel ih =>
    intro n c hc
    match fuel, n with
    | 0, n => simp [natDigitsCore] at hc
    | fuel + 1, 0 => simp [natDigitsCore] at hc
    | fuel + 1, n + 1 =>
      rw [natDigitsCore] at hc
      rcases List.mem_append.mp hc with h | h
      · exact ih fuel (Nat.lt_succ_self _) _ c h
      · rcases List.mem_singleton.mp h with rfl
        exact isDigit_digitChar (Nat.mod_lt _ (by norm_num))

lemma natDigits_all_digits (n : Nat) : ∀ c ∈ natDigits n, c.isDigit = true := by
  intro c hc
  by_cases h : n = 0
  · subst h
    rcases List.mem_singleton.mp hc with rfl
    rfl
  · simp only [natDigits, if_neg h] at hc
    exact natDigitsCore_all_digits n n c hc

lemma natDigits_ne_nil (n : Nat) : natDigits n ≠ [] := by
  by_cases h : n = 0
  · subst h; simp [natDigits]
  · simp only [natDigits, if_neg h]
    match n, h with
    | n + 1, _ =>
      rw [natDigitsCore]
      simp

lemma cr_not_mem_natDigits (n : Nat) : '\r' ∉ natDigits n := by
  intro hmem
  have := natDigits_all_digits n '\r' hmem
  simp [Char.isDigit] at this

end BasicLemmas

/-! ## Data model

A client Request carries the fields the wrapper actually reads:
seq, command, arguments.port and arguments.noDebug. -/

/-- The disconnect command literal of handleWrapperRequest. -/
def cmdDisconnect : Chars := "disconnect".toList

/-- The launch command literal of handleWrapperRequest. -/
def cmdLaunch : Chars := "launch".toList

/-- The attach command literal of handleWrapperRequest. -/
def cmdAttach : Chars := "attach".toList

/-- An inbound client request (DebugProtocol.Request restricted to the fields
the wrapper reads). portArg is arguments.port when present; noDebug is the
truthiness of arguments.noDebug. -/
structure Request where
  seq : Nat
  command : Chars
  portArg : Option Chars
  noDebug : Bool
deriving DecidableEq, Repr

/-- An outbound message written to the client channel, with the wrapper
assigned sequence number it carries. -/
inductive ClientMsg (J : Type) where
  /-- A target message forwarded after JSON parsing, with seq assigned. -/
  | forwarded (seq : Nat) (body : J)
  /-- A synthetic response built by writeResponseMessage. -/
  | response (seq : Nat) (request_seq : Nat) (success : Bool) (command : Chars)
  /-- An output event built by writeOutputEvent. -/
  | outputEvent (seq : Nat) (category : Chars) (output : Chars)
deriving DecidableEq

/-- The wrapper assigned sequence number carried by an outbound message. -/
def ClientMsg.seqOf {J : Type} : ClientMsg J → Nat
  | .forwarded s _ => s
  | .response s _ _ _ => s
  | .outputEvent s _ _ => s

/-- Process liveness: running, exited via process.exit, or killed by an
uncaught exception. -/
inductive ProcStatus where
  | running
  | exited (code : Int)
  | crashed
deriving DecidableEq, Repr

/-- The mutable state of one HHVMDebuggerWrapper instance, plus the
observable traces (client writes, target writes, stderr diagnostics, and the
requests parsed from client frames) accumulated over its lifetime. -/
structure BridgeState (J : Type) where
  sequenceNumber : Nat
  currentOutputData : Chars
  currentInputData : Chars
  currentContentLength : Nat
  bufferedRequests : List Request
  debugging : Bool
  /-- whether debuggerWriteCallback has been set (the callback itself only
  serialises and writes, which the targetWrites trace records). -/
  callbackSet : Bool
  /-- the attach request registered on the socket connect handler, if an
  attach is in flight (socket.once means it is cleared when it fires). -/
  pendingAttach : Option Request
  status : ProcStatus
  clientWrites : List (ClientMsg J)
  targetWrites : List Request
  stderrOut : List Chars
  dispatched : List Request
deriving DecidableEq

/-- The constructor state of HHVMDebuggerWrapper. -/
def initState (J : Type) : BridgeState J :=
  { sequenceNumber := 0
    currentOutputData := []
    currentInputData := []
    currentContentLength := 0
    bufferedRequests := []
    debugging := false
    callbackSet := false
    pendingAttach := none
    status := .running
    clientWrites := []
    targetWrites := []
    stderrOut := []
    dispatched := [] }

/-! ## Command translation (translateNuclideRequest) -/

/-- translateNuclideRequest: a command starting with the legacy nuclide
marker has its first occurrence replaced by the fb marker; the request is
then serialised (here: returned) for the write callback. -/
def translateNuclideRequest (r : Request) : Request :=
  if r.command ≠ [] ∧ nuclideMark.isPrefixOf r.command then
    { r with command := replaceFirst nuclideMark fbMark r.command }
  else r

/-! ## Target-side delimiting (processDebuggerMessage) -/

/-- The while loop of processDebuggerMessage: as long as the buffer has a NUL
at index greater than zero, split off the message before it, JSON-parse it
(abstract parse), on success assign the next sequence number and emit it to
the client, on failure emit a stderr diagnostic; then drop the message and
its NUL.  Returns the leftover buffer, the new counter, the emitted
(seq, message) pairs and the diagnostics, each in order. -/
def drainOutput {J : Type} (parse : Chars → Option J) (buf : Chars) (seq : Nat) :
    Chars × Nat × List (Nat × J) × List Chars :=
  match hidx : findSubstr [NUL] buf with
  | some idx =>
    if hpos : 0 < idx then
      let message := buf.take idx
      let rest := buf.drop (idx + 1)
      match parse message with
      | some obj =>
        let r := drainOutput parse rest (seq + 1)
        (r.1, r.2.1, (seq + 1, obj) :: r.2.2.1, r.2.2.2)
      | none =>
        let r := drainOutput parse rest seq
        (r.1, r.2.1, r.2.2.1, message :: r.2.2.2)
    else (buf, seq, [], [])
  | none => (buf, seq, [], [])
termination_by buf.length
decreasing_by
  all_goals
    simp only [List.length_drop]
    have hne : buf ≠ [] := by
      intro h
      subst h
      simp [findSubstr, List.isPrefixOf, NUL] at hidx
    have hlen : 0 < buf.length := List.length_pos.mpr hne
    omega

/-- processDebuggerMessage: append the chunk to the output buffer and drain
complete NUL-terminated messages. -/
def processDebuggerMessage {J : Type} (parse : Chars → Option J) (chunk : Chars)
    (st : BridgeState J) : BridgeState J :=
  let r := drainOutput parse (st.currentOutputData ++ chunk) st.sequenceNumber
  { st with
    currentOutputData := r.1
    sequenceNumber := r.2.1
    clientWrites := st.clientWrites ++ r.2.2.1.map (fun p => .forwarded p.1 p.2)
    stderrOut := st.stderrOut ++ r.2.2.2 }

/-! ## Client-side primitives -/

/-- writeResponseMessage: a synthetic response gets the next sequence number
and is framed onto stdout. -/
def writeResponseMessage {J : Type} (request_seq : Nat) (success : Bool)
    (command : Chars) (st : BridgeState J) : BridgeState J :=
  { st with
    sequenceNumber := st.sequenceNumber + 1
    clientWrites := st.clientWrites ++
      [.response (st.sequenceNumber + 1) request_seq success command] }

/-- writeOutputEvent: wraps raw child stdout/stderr bytes into an output
event with the next sequence number. -/
def writeOutputEvent {J : Type} (category : Chars) (message : Chars)
    (st : BridgeState J) : BridgeState J :=
  { st with
    sequenceNumber := st.sequenceNumber + 1
    clientWrites := st.clientWrites ++
      [.outputEvent (st.sequenceNumber + 1) category message] }

/-- forwardBufferedMessages: if the write callback is set, serialise and send
every buffered request, in order; the array is not cleared. -/
def forwardBufferedMessages {J : Type} (st : BridgeState J) : BridgeState J :=
  if st.callbackSet then
    { st with targetWrites := st.targetWrites ++ st.bufferedRequests }
  else st

/-- The body of the socket connect handler in attachTarget, and likewise the
tail of launchTarget: send the original lifecycle request through the fresh
callback, install the callback, flush the buffer, mark debugging. -/
def connectCore {J : Type} (msg : Request) (st : BridgeState J) : BridgeState J :=
  let st1 := { st with targetWrites := st.targetWrites ++ [msg] }
  let st2 := { st1 with callbackSet := true }
  let st3 := forwardBufferedMessages st2
  { st3 with debugging := true }

/-- The socket connect handler for attach additionally acknowledges the
attach request with a synthetic success response. -/
def connectHandler {J : Type} (msg : Request) (st : BridgeState J) : BridgeState J :=
  writeResponseMessage msg.seq true msg.command (connectCore msg st)

/-- parseInt(port, 10) restricted to the shapes a port string takes: leading
spaces skipped, then a maximal digit run; none models NaN.  (Sign handling
is omitted: a signed port is rejected by the socket library anyway and no
claim depends on it.) -/
def parsePort (s : Chars) : Option Nat :=
  let t := s.dropWhile (fun c => c = ' ')
  let ds := t.takeWhile Char.isDigit
  if ds.isEmpty then none else some (digitsVal ds)

/-- The synchronous part of attachTarget: validate the port (an invalid port
throws, crashing the wrapper) and register the connect handler carrying the
attach request.  The connect event itself arrives later (Ev.sockConnect). -/
def attachTargetSync {J : Type} (r : Request) (st : BridgeState J) : BridgeState J :=
  match r.portArg with
  | none => { st with pendingAttach := some r }
  | some p =>
    match parsePort p with
    | none => { st with status := .crashed }
    | some _ => { st with pendingAttach := some r }

/-- launchTarget as it affects bridge state.  In noDebug mode the stdio array
has only three entries, so registering the protocol data handler reads
stdio[3] = undefined and throws, crashing the wrapper before the handshake
(see launchActions for the byte-level model).  Otherwise the handshake is
sent, the callback installed, the buffer flushed and debugging marked. -/
def launchTarget {J : Type} (r : Request) (st : BridgeState J) : BridgeState J :=
  if r.noDebug then { st with status := .crashed }
  else connectCore r st

/-- handleWrapperRequest: intercept lifecycle commands, buffer anything that
arrives before debugging starts, otherwise report unhandled (false) so the
caller forwards the request.  Returns (handled, new state). -/
def handleWrapperRequest {J : Type} (r : Request) (st : BridgeState J) :
    Bool × BridgeState J :=
  if r.command = cmdDisconnect then
    (true, { writeResponseMessage r.seq true r.command st with status := .exited 0 })
  else if r.command = cmdLaunch then
    (true, launchTarget r st)
  else if r.command = cmdAttach then
    (true, attachTargetSync r st)
  else if ¬ st.debugging then
    (true, { st with bufferedRequests := st.bufferedRequests ++ [r] })
  else
    (false, st)

/-- The dispatch of one parsed request inside the processClientMessage loop:
record the parse, run handleWrapperRequest, and if unhandled and the write
callback exists, translate and forward. -/
def dispatchRequest {J : Type} (r : Request) (st : BridgeState J) : BridgeState J :=
  let st0 := { st with dispatched := st.dispatched ++ [r] }
  match handleWrapperRequest r st0 with
  | (true, st1) => st1
  | (false, st1) =>
    if st1.callbackSet then
      { st1 with targetWrites := st1.targetWrites ++ [translateNuclideRequest r] }
    else st1

/-- readContentHeader: look for TWO_CRLF; at index zero or absent, wait.
Otherwise match the Content-Length regex on the header (no match throws,
killing the process), record the expected length, chop the header and the
separator, and bump the sequence counter. -/
def readContentHeader {J : Type} (st : BridgeState J) : BridgeState J :=
  match findSubstr TWO_CRLF st.currentInputData with
  | none => st
  | some idx =>
    if idx = 0 then st
    else
      match matchCL (st.currentInputData.take idx) with
      | none => { st with status := .crashed }
      | some ds =>
        { st with
          currentContentLength := digitsVal ds
          currentInputData := st.currentInputData.drop (idx + TWO_CRLF.length)
          sequenceNumber := st.sequenceNumber + 1 }

/-- The tail of one processClientMessage loop iteration, after the optional
header read produced st1: break if the header read died, or no complete
payload is available; otherwise extract and dispatch the message, then (if
the dispatch left the process alive) consume the payload and continue. -/
def clientIterCore {J : Type} (parseReq : Chars → Request) (st1 : BridgeState J) :
    Bool × BridgeState J :=
  if st1.status ≠ .running then (false, st1)
  else if st1.currentContentLength = 0 ∨
      st1.currentInputData.length < st1.currentContentLength then (false, st1)
  else
    let message := st1.currentInputData.take st1.currentContentLength
    let st2 := dispatchRequest (parseReq message) st1
    if st2.status ≠ .running then (false, st2)
    else
      (true, { st2 with
        currentContentLength := 0
        currentInputData := st2.currentInputData.drop st1.currentContentLength })

/-- One iteration of the processClientMessage while loop.  The Bool is true
when the loop continues with the returned state, false when it breaks (or
the process has died). -/
def clientIter {J : Type} (parseReq : Chars → Request) (st : BridgeState J) :
    Bool × BridgeState J :=
  if st.status ≠ .running then (false, st)
  else clientIterCore parseReq
    (if st.currentContentLength = 0 then readContentHeader st else st)

section IterFacts

variable {J : Type}

lemma handleWrapperRequest_input (r : Request) (st : BridgeState J) :
    (handleWrapperRequest r st).2.currentInputData = st.currentInputData ∧
      (handleWrapperRequest r st).2.currentContentLength = st.currentContentLength := by
  unfold handleWrapperRequest writeResponseMessage launchTarget connectCore
    forwardBufferedMessages attachTargetSync
  repeat' split
  all_goals simp

lemma dispatchRequest_input (r : Request) (st : BridgeState J) :
    (dispatchRequest r st).currentInputData = st.currentInputData ∧
      (dispatchRequest r st).currentContentLength = st.currentContentLength := by
  have h := handleWrapperRequest_input r
    { st with dispatched := st.dispatched ++ [r] }
  simp only [dispatchRequest]
  rcases hw : handleWrapperRequest r { st with dispatched := st.dispatched ++ [r] }
    with ⟨b, st1⟩
  rw [hw] at h
  cases b
  · simp only
    split <;> simpa using h
  · simpa using h

lemma readContentHeader_input_le (st : BridgeState J) :
    (readContentHeader st).currentInputData.length ≤ st.currentInputData.length := by
  simp only [readContentHeader]
  split
  · exact le_rfl
  · split
    · exact le_rfl
    · split
      · exact le_rfl
      · simp

lemma clientIterCore_decreases (parseReq : Chars → Request) (st1 s : BridgeState J)
    (h : clientIterCore parseReq st1 = (true, s)) :
    s.currentInputData.length < st1.currentInputData.length := by
  simp only [clientIterCore] at h
  split at h
  · simp at h
  split at h
  · simp at h
  split at h
  · simp at h
  · rename_i hrun hlen hrun2
    push_neg at hlen
    injection h with h1 h2
    subst h2
    have hdi := dispatchRequest_input
      (parseReq (st1.currentInputData.take st1.currentContentLength)) st1
    simp only [List.length_drop, hdi.1]
    omega

lemma clientIter_decreases (parseReq : Chars → Request) (st s : BridgeState J)
    (h : clientIter parseReq st = (true, s)) :
    s.currentInputData.length < st.currentInputData.length := by
  unfold clientIter at h
  split at h
  · simp at h
  · set st1 := if st.currentContentLength = 0 then readContentHeader st else st with hst1
    have hle : st1.currentInputData.length ≤ st.currentInputData.length := by
      rw [hst1]
      split
      · exact readContentHeader_input_le st
      · exact le_rfl
    have := clientIterCore_decreases parseReq st1 s h
    omega

end IterFacts

/-- The while(true) loop of processClientMessage, iterated to its break. -/
def drainClient {J : Type} (parseReq : Chars → Request) (st : BridgeState J) :
    BridgeState J :=
  match h : clientIter parseReq st with
  | (false, s) => s
  | (true, s) => drainClient parseReq s
termination_by st.currentInputData.length
decreasing_by
  exact clientIter_decreases parseReq st s h

/-- processClientMessage: append the chunk to the input buffer and run the
frame loop. -/
def processClientMessage {J : Type} (parseReq : Chars → Request) (chunk : Chars)
    (st : BridgeState J) : BridgeState J :=
  drainClient parseReq { st with currentInputData := st.currentInputData ++ chunk }

/-! ## The event machine -/

/-- The readiness events the single-threaded wrapper reacts to: a stdin
chunk, the attach socket connect event, a protocol chunk from the target
(socket data or child stdio[3] data), and raw child stdout/stderr bytes. -/
inductive Ev where
  | clientData (chunk : Chars)
  | sockConnect
  | targetData (chunk : Chars)
  | childStdout (chunk : Chars)
  | childStderr (chunk : Chars)

/-- The connect event of the attach socket.  socket.once means the handler
fires at most once, so the pending attach request is consumed. -/
def sockConnectStep {J : Type} (st : BridgeState J) : BridgeState J :=
  match st.pendingAttach with
  | none => st
  | some m => connectHandler m { st with pendingAttach := none }

/-- One event handled to completion.  A dead process receives no events. -/
def step {J : Type} (parse : Chars → Option J) (parseReq : Chars → Request)
    (e : Ev) (st : BridgeState J) : BridgeState J :=
  if st.status ≠ .running then st
  else
    match e with
    | .clientData c => processClientMessage parseReq c st
    | .sockConnect => sockConnectStep st
    | .targetData c => processDebuggerMessage parse c st
    | .childStdout c => writeOutputEvent "stdout".toList c st
    | .childStderr c => writeOutputEvent "stderr".toList c st

/-- A whole run of the wrapper over a sequence of events. -/
def run {J : Type} (parse : Chars → Option J) (parseReq : Chars → Request)
    (es : List Ev) (st : BridgeState J) : BridgeState J :=
  es.foldl (fun s e => step parse parseReq e s) st

/-- The Content-Length frame the client channel reads and writes: header,
separator, then exactly length-many payload characters. -/
def mkFrame (payload : Chars) : Chars :=
  clHead ++ natDigits payload.length ++ TWO_CRLF ++ payload

/-! ## Attach retry policy (the error handler of attachTarget) -/

/-- The outcome of one socket connect attempt, as the environment decides. -/
inductive ConnOutcome where
  | ok
  | err (code : Int)

/-- Result of the attach retry loop: either the wrapper is still alive with
the connect handler having fired, or it wrote a diagnostic to stderr and
exited with the error code. -/
inductive AttachResult (J : Type) where
  | live (st : BridgeState J)
  | fatal (wroteDiagnostic : Bool) (exitCode : Int)

/-- attachTarget viewed through the sequence of connect outcomes: attempt k
uses outcome k.  On error with retries at the limit (5), write the
diagnostic and exit with the error code; below the limit, wait the fixed
1000 ms and re-attempt the same attach request with retries + 1.  Returns
the list of delays taken and the result.  An empty outcome list means the
attempt is still pending, leaving the state unchanged. -/
def attachRetryRun {J : Type} (m : Request) (outcomes : List ConnOutcome)
    (retries : Nat) (st : BridgeState J) : List Nat × AttachResult J :=
  match outcomes with
  | [] => ([], .live st)
  | .ok :: _ => ([], .live (connectHandler m st))
  | .err code :: rest =>
    if retries ≥ 5 then ([], .fatal true code)
    else
      let r := attachRetryRun m rest (retries + 1) st
      (1000 :: r.1, r.2)

/-! ## Launch spawn model (the byte-level view of launchTarget)

This model records the observable actions of launchTarget in order,
including the write destination of the protocol callback (the stream index
in the stdio array), and the point at which the noDebug variant dies. -/

/-- One stdio slot requested from child_process.spawn. -/
inductive StdioSlot where
  | pipeSlot
deriving DecidableEq, Repr

/-- The hardcoded hhvm argument list of the launch path. -/
def hhvmArgs : List Chars :=
  ["--mode".toList, "vsdebug".toList, "--vsDebugPort".toList, "8999".toList,
   "--vsDebugNoWait".toList, "1".toList, "/home/pranay/repos/hacktest/first.php".toList]

/-- An observable action of launchTarget. -/
inductive LaunchAction where
  /-- child_process.spawn with the given command, args, stdio array and
  detached flag. -/
  | spawn (cmd : Chars) (args : List Chars) (stdio : List StdioSlot) (detached : Bool)
  | registerExitHandler
  | registerErrorHandler
  | registerStdoutHandler
  | registerStderrHandler
  /-- a data handler registered on the protocol stream stdio[i]. -/
  | registerProtocolHandler (streamIdx : Nat)
  /-- bytes written into the child stream stdio[streamIdx]. -/
  | writeToChild (streamIdx : Nat) (bytes : Chars)
deriving DecidableEq

/-- launchTarget, as the ordered list of actions it performs and an optional
uncaught TypeError.  stringify is the abstract JSON.stringify for requests.
The stdio option is three pipes under noDebug and four otherwise; the
protocol read handler is registered on stdio[3], which under noDebug does
not exist, so the member access on undefined throws before the handshake.
The write callback sends stringified messages, NUL-terminated, to
targetProcess.stdin, i.e. stdio[0]. -/
def launchActions (stringify : Request → Chars) (m : Request) :
    List LaunchAction × Bool :=
  let stdio : List StdioSlot :=
    if m.noDebug then [.pipeSlot, .pipeSlot, .pipeSlot]
    else [.pipeSlot, .pipeSlot, .pipeSlot, .pipeSlot]
  let acts : List LaunchAction :=
    [.spawn "hhvm".toList hhvmArgs stdio false,
     .registerExitHandler, .registerErrorHandler,
     .registerStdoutHandler, .registerStderrHandler]
  match stdio[3]? with
  | none => (acts, true)
  | some _ =>
    (acts ++ [.registerProtocolHandler 3, .writeToChild 0 (stringify m ++ [NUL])], false)

/-! ## Lemmas about the search and translation primitives -/

section SearchLemmas

lemma isPrefixOf_append_self (l t : Chars) : l.isPrefixOf (l ++ t) = true := by
  rw [List.isPrefixOf_iff_prefix]
  exact List.prefix_append l t

lemma isPrefixOf_sound {l t : Chars} (h : l.isPrefixOf t = true) : l <+: t := by
  rwa [List.isPrefixOf_iff_prefix] at h

lemma findSubstr_zero {pat l : Chars} (h : pat.isPrefixOf l = true) :
    findSubstr pat l = some 0 := by
  cases l with
  | nil => simp [findSubstr, h]
  | cons c rest => simp [findSubstr, h]

lemma findSubstr_cons_of_not {pat : Chars} {c : Char} {rest : Chars}
    (h : pat.isPrefixOf (c :: rest) = false) :
    findSubstr pat (c :: rest) = (findSubstr pat rest).map (· + 1) := by
  simp [findSubstr, h]

lemma findSubstr_marker (p0 : Char) (pr h w : Chars) (hh : p0 ∉ h)
    (hw : pr.isPrefixOf w = true) :
    findSubstr (p0 :: pr) (h ++ p0 :: w) = some h.length := by
  induction h with
  | nil =>
    apply findSubstr_zero
    simp [List.isPrefixOf, hw]
  | cons c h ih =>
    rw [List.cons_append]
    have hc : p0 ≠ c := fun he => hh (he ▸ List.mem_cons_self c h)
    have hf : (p0 :: pr).isPrefixOf (c :: (h ++ p0 :: w)) = false := by
      simp only [List.isPrefixOf, Bool.and_eq_false_iff]
      left
      exact beq_eq_false_iff_ne.mpr hc
    rw [findSubstr_cons_of_not hf, ih (fun he => hh (List.mem_cons_of_mem c he))]
    rfl

lemma findSubstr_occ {pat l : Chars} {i : Nat} (h : findSubstr pat l = some i) :
    pat.isPrefixOf (l.drop i) = true ∧ i + pat.length ≤ l.length := by
  induction l generalizing i with
  | nil =>
    simp only [findSubstr] at h
    split at h
    · obtain rfl : (0 : Nat) = i := Option.some.inj h
      rename_i hp
      exact ⟨hp, by simpa using (isPrefixOf_sound hp).length_le⟩
    · exact absurd h (by simp)
  | cons c rest ih =>
    simp only [findSubstr] at h
    split at h
    · obtain rfl : (0 : Nat) = i := Option.some.inj h
      rename_i hp
      refine ⟨hp, ?_⟩
      have := (isPrefixOf_sound hp).length_le
      simpa using this
    · rcases Option.map_eq_some'.mp h with ⟨j, hj, rfl⟩
      rcases ih hj with ⟨h1, h2⟩
      refine ⟨h1, ?_⟩
      simp only [List.length_cons]
      omega

lemma findSubstr_none (pat l : Chars)
    (h : ∀ i, pat.isPrefixOf (l.drop i) = false) : findSubstr pat l = none := by
  induction l with
  | nil =>
    have h0 := h 0
    simp only [List.drop_nil] at h0
    simp [findSubstr, h0]
  | cons c rest ih =>
    have h0 := h 0
    simp only [List.drop_zero] at h0
    simp only [findSubstr, h0]
    rw [ih fun i => by simpa using h (i + 1)]
    simp

lemma isPrefixOf_false_of_short {pat l : Chars} (h : l.length < pat.length) :
    pat.isPrefixOf l = false := by
  by_contra hne
  have : pat.isPrefixOf l = true := by
    cases hpl : pat.isPrefixOf l
    · exact absurd hpl hne
    · rfl
  have := (isPrefixOf_sound this).length_le
  omega

lemma cr_not_mem_clHead : '\r' ∉ clHead := by decide

/-- A strict prefix of header-plus-separator too short to contain the
separator has no TWO_CRLF occurrence at all. -/
lemma findSubstr_none_of_partial_header {hdr d : Chars}
    (hcr : '\r' ∉ hdr) (hpre : d <+: hdr ++ TWO_CRLF)
    (hlen : d.length < hdr.length + TWO_CRLF.length) :
    findSubstr TWO_CRLF d = none := by
  apply findSubstr_none
  intro i
  by_cases hi : i < d.length
  · by_cases hih : i < hdr.length
    · have hd : d.drop i = d[i] :: d.drop (i + 1) := List.drop_eq_getElem_cons hi
      have hdi : d[i] = hdr[i] := by
        have hib : i < (hdr ++ TWO_CRLF).length := by
          have := hpre.length_le
          simp only [List.length_append]
          omega
        have h1 : d[i] = (hdr ++ TWO_CRLF)[i] := hpre.getElem hi
        rwa [List.getElem_append_left hih] at h1
      have hne : d[i] ≠ '\r' := by
        rw [hdi]
        intro he
        exact hcr (he ▸ List.getElem_mem hih)
      rw [hd]
      simp only [TWO_CRLF, List.isPrefixOf]
      simp [Ne.symm hne]
    · apply isPrefixOf_false_of_short
      simp only [List.length_drop, TWO_CRLF, List.length_cons]
      simp only [TWO_CRLF, List.length_cons] at hlen
      omega
  · have : d.drop i = [] := List.drop_eq_nil_of_le (by omega)
    rw [this]
    simp [TWO_CRLF, List.isPrefixOf]

lemma matchCL_self (ds : Chars) (hds : ∀ c ∈ ds, c.isDigit = true) (hne : ds ≠ []) :
    matchCL (clHead ++ ds) = some ds := by
  have hcons : clHead ++ ds = 'C' :: (clHead.tail ++ ds) := rfl
  rw [hcons, matchCL]
  rw [show 'C' :: (clHead.tail ++ ds) = clHead ++ ds from rfl]
  rw [if_pos (isPrefixOf_append_self clHead ds)]
  rw [List.drop_left, List.takeWhile_eq_self_iff.mpr hds]
  simp [hne]

end SearchLemmas

section TranslateLemmas

lemma replaceFirst_of_isPrefixOf {pat s : Chars} (repl : Chars)
    (h : pat.isPrefixOf s = true) (hne : pat ≠ []) :
    replaceFirst pat repl s = repl ++ s.drop pat.length := by
  cases s with
  | nil =>
    cases pat with
    | nil => exact absurd rfl hne
    | cons a as => simp [List.isPrefixOf] at h
  | cons c rest => simp [replaceFirst, h]

lemma translate_fields (r : Request) :
    (translateNuclideRequest r).seq = r.seq ∧
      (translateNuclideRequest r).portArg = r.portArg ∧
      (translateNuclideRequest r).noDebug = r.noDebug := by
  unfold translateNuclideRequest
  split <;> simp

lemma translate_of_mark {r : Request} (h : nuclideMark.isPrefixOf r.command = true) :
    (translateNuclideRequest r).command = fbMark ++ r.command.drop nuclideMark.length := by
  have hne : r.command ≠ [] := by
    intro he
    rw [he] at h
    simp [nuclideMark, List.isPrefixOf] at h
  simp only [translateNuclideRequest, if_pos (And.intro hne h)]
  exact replaceFirst_of_isPrefixOf fbMark h (by simp [nuclideMark])

lemma translate_of_not_mark {r : Request} (h : nuclideMark.isPrefixOf r.command = false) :
    translateNuclideRequest r = r := by
  simp [translateNuclideRequest, h]

lemma not_mark_of_fb (x : Chars) : nuclideMark.isPrefixOf (fbMark ++ x) = false := by
  simp [nuclideMark, fbMark, List.isPrefixOf]

lemma translate_idem (r : Request) :
    translateNuclideRequest (translateNuclideRequest r) = translateNuclideRequest r := by
  cases hm : nuclideMark.isPrefixOf r.command with
  | false => rw [translate_of_not_mark hm, translate_of_not_mark hm]
  | true =>
    apply translate_of_not_mark
    rw [translate_of_mark hm]
    exact not_mark_of_fb _

end TranslateLemmas

/-! ## Lemmas about target-side draining -/

section DrainOutputLemmas

variable {J : Type} (parse : Chars → Option J)

lemma drainOutput_nul_head (t : Chars) (seq : Nat) :
    drainOutput parse (NUL :: t) seq = (NUL :: t, seq, [], []) := by
  have hfind : findSubstr [NUL] (NUL :: t) = some 0 :=
    findSubstr_zero (by simp [List.isPrefixOf])
  unfold drainOutput
  split
  · rename_i idx hidx
    rw [hfind] at hidx
    obtain rfl : (0 : Nat) = idx := Option.some.inj hidx
    simp
  · rfl

lemma drainOutput_nil (seq : Nat) :
    drainOutput parse [] seq = ([], seq, [], []) := by
  have hfind : findSubstr [NUL] ([] : Chars) = none := by
    simp [findSubstr, List.isPrefixOf]
  unfold drainOutput
  split
  · rename_i idx hidx
    rw [hfind] at hidx
    exact absurd hidx (by simp)
  · rfl

lemma findSubstr_nul (h t : Chars) (hh : NUL ∉ h) :
    findSubstr [NUL] (h ++ NUL :: t) = some h.length :=
  findSubstr_marker NUL [] h t hh (by simp [List.isPrefixOf])

/-- One complete nonempty message at the head of the buffer: on parse
success it is emitted with the next sequence number, on failure it goes to
stderr; either way the loop continues past its NUL. -/
lemma drainOutput_cons (msg rest : Chars) (seq : Nat)
    (hne : msg ≠ []) (hnul : NUL ∉ msg) :
    drainOutput parse (msg ++ NUL :: rest) seq =
      match parse msg with
      | some obj =>
        let r := drainOutput parse rest (seq + 1)
        (r.1, r.2.1, (seq + 1, obj) :: r.2.2.1, r.2.2.2)
      | none =>
        let r := drainOutput parse rest seq
        (r.1, r.2.1, r.2.2.1, msg :: r.2.2.2) := by
  have hfind := findSubstr_nul msg rest hnul
  have hpos : 0 < msg.length := List.length_pos.mpr hne
  have htake : (msg ++ NUL :: rest).take msg.length = msg := List.take_left msg _
  have hdrop : (msg ++ NUL :: rest).drop (msg.length + 1) = rest := by
    have := @List.drop_append Char msg (NUL :: rest) 1
    simpa using this
  conv_lhs => unfold drainOutput
  split
  · rename_i idx hidx
    rw [hfind] at hidx
    obtain rfl : msg.length = idx := Option.some.inj hidx
    rw [dif_pos hpos, htake, hdrop]
  · rename_i hidx
    rw [hfind] at hidx
    exact absurd hidx (by simp)

lemma drainOutput_cons_ok (msg rest : Chars) (seq : Nat) (v : J)
    (hne : msg ≠ []) (hnul : NUL ∉ msg) (hp : parse msg = some v) :
    drainOutput parse (msg ++ NUL :: rest) seq =
      ((drainOutput parse rest (seq + 1)).1, (drainOutput parse rest (seq + 1)).2.1,
       (seq + 1, v) :: (drainOutput parse rest (seq + 1)).2.2.1,
       (drainOutput parse rest (seq + 1)).2.2.2) := by
  rw [drainOutput_cons parse msg rest seq hne hnul, hp]

lemma drainOutput_cons_err (msg rest : Chars) (seq : Nat)
    (hne : msg ≠ []) (hnul : NUL ∉ msg) (hp : parse msg = none) :
    drainOutput parse (msg ++ NUL :: rest) seq =
      ((drainOutput parse rest seq).1, (drainOutput parse rest seq).2.1,
       (drainOutput parse rest seq).2.2.1,
       msg :: (drainOutput parse rest seq).2.2.2) := by
  rw [drainOutput_cons parse msg rest seq hne hnul, hp]

lemma processDebuggerMessage_nul_head (c t : Chars) (st : BridgeState J)
    (hbuf : st.currentOutputData = NUL :: t) :
    processDebuggerMessage parse c st =
      { st with currentOutputData := NUL :: (t ++ c) } := by
  simp [processDebuggerMessage, hbuf, List.cons_append, drainOutput_nul_head]

end DrainOutputLemmas

/-! ## Claim C10: a leading NUL in the target buffer blocks it forever -/

/-- C10 (confirmed).  If the accumulated target-output buffer begins with a
NUL byte, the delimiting step consumes nothing and emits nothing: the
leading NUL is never removed, and however many further target chunks
arrive, and however well-formed they are, nothing is ever written to the
client, no diagnostic is produced, and the sequence counter never moves. -/
theorem c10_leading_nul_blocks {J : Type} (parse : Chars → Option J)
    (parseReq : Chars → Request) (t : Chars) (chunks : List Chars)
    (st : BridgeState J)
    (hbuf : st.currentOutputData = NUL :: t) (hrun : st.status = .running) :
    (run parse parseReq (chunks.map .targetData) st).currentOutputData
        = NUL :: (t ++ chunks.join) ∧
      (run parse parseReq (chunks.map .targetData) st).clientWrites
        = st.clientWrites ∧
      (run parse parseReq (chunks.map .targetData) st).stderrOut = st.stderrOut ∧
      (run parse parseReq (chunks.map .targetData) st).sequenceNumber
        = st.sequenceNumber := by
  induction chunks generalizing st t with
  | nil => simp [run, hbuf]
  | cons c cs ih =>
    have hstep : step parse parseReq (.targetData c) st =
        { st with currentOutputData := NUL :: (t ++ c) } := by
      have hg : ¬ st.status ≠ ProcStatus.running := by simp [hrun]
      unfold step
      rw [if_neg hg]
      exact processDebuggerMessage_nul_head parse c t st hbuf
    have hrun2 : ({ st with currentOutputData := NUL :: (t ++ c) }
        : BridgeState J).status = .running := hrun
    have := ih (t ++ c) { st with currentOutputData := NUL :: (t ++ c) } rfl hrun2
    simp only [List.map_cons, run, List.foldl_cons] at *
    rw [hstep]
    simpa [List.append_assoc] using this

/-- Evaluation of c10_leading_nul_blocks at a concrete blocked buffer. -/
theorem c10_leading_nul_blocks_witness :
    ((run (fun s => if s = ['4', '2'] then some 42 else none) (fun _ => ⟨0, [], none, false⟩)
        [.targetData ['4', '2', NUL]]
        { initState Nat with currentOutputData := [NUL] }).clientWrites = [] ∧
      (run (fun s => if s = ['4', '2'] then some 42 else none) (fun _ => ⟨0, [], none, false⟩)
        [.targetData ['4', '2', NUL]]
        { initState Nat with currentOutputData := [NUL] }).currentOutputData
        = [NUL, '4', '2', NUL]) := by
  have h := c10_leading_nul_blocks (J := Nat)
    (fun s => if s = ['4', '2'] then some 42 else none) (fun _ => ⟨0, [], none, false⟩)
    [] [['4', '2', NUL]] { initState Nat with currentOutputData := [NUL] } rfl rfl
  refine ⟨?_, ?_⟩
  · rw [show [Ev.targetData ['4', '2', NUL]]
        = [['4', '2', NUL]].map Ev.targetData from rfl]
    rw [h.2.1]
    rfl
  · rw [show [Ev.targetData ['4', '2', NUL]]
        = [['4', '2', NUL]].map Ev.targetData from rfl]
    rw [h.1]
    rfl

/-! ## Claim C6: malformed target messages (corrected) -/

/-- The concrete toy JSON codec used in closed witnesses: only the text 42
parses, to the number 42. -/
def parse42 : Chars → Option Nat := fun s => if s = ['4', '2'] then some 42 else none

/-- C6 counterexample.  The claim quantifies over every NUL-terminated
target message that is not valid JSON; the empty message (a lone NUL) is
such a message, yet the bridge neither logs a diagnostic nor drops it, and
the well-formed message 42 NUL following it in the same buffer is never
parsed or delivered: the loop only fires on a NUL at index greater than
zero, so the whole buffer is left untouched. -/
theorem c6_counterexample :
    drainOutput parse42 [NUL, '4', '2', NUL] 0 = ([NUL, '4', '2', NUL], 0, [], []) := by
  have h := drainOutput_nul_head parse42 ['4', '2', NUL] 0
  simpa using h

/-- C6 amended (proved).  For every NONEMPTY NUL-terminated target message
that fails to parse, the bridge records exactly one stderr diagnostic
carrying that message and drops only it, and a subsequent valid message in
the same buffer is still parsed, given the next sequence number, and
delivered to the client. -/
theorem c6_nonempty_malformed_recovery {J : Type} (parse : Chars → Option J)
    (bad good : Chars) (v : J) (seq : Nat)
    (hbadne : bad ≠ []) (hbadnul : NUL ∉ bad) (hbadparse : parse bad = none)
    (hgoodne : good ≠ []) (hgoodnul : NUL ∉ good) (hgoodparse : parse good = some v) :
    drainOutput parse (bad ++ NUL :: (good ++ [NUL])) seq
      = ([], seq + 1, [(seq + 1, v)], [bad]) := by
  rw [drainOutput_cons_err parse bad (good ++ [NUL]) seq hbadne hbadnul hbadparse]
  rw [show good ++ [NUL] = good ++ NUL :: ([] : Chars) from rfl]
  rw [drainOutput_cons_ok parse good [] seq v hgoodne hgoodnul hgoodparse]
  simp [drainOutput_nil]

/-- Evaluation of c6_nonempty_malformed_recovery on a concrete buffer:
message x is malformed, message 42 parses. -/
theorem c6_nonempty_malformed_recovery_witness :
    (['x'] : Chars) ≠ [] ∧ parse42 ['x'] = none ∧ parse42 ['4', '2'] = some 42 ∧
      drainOutput parse42 (['x'] ++ NUL :: (['4', '2'] ++ [NUL])) 0
        = ([], 1, [(1, 42)], [['x']]) :=
  ⟨by decide, by decide, by decide,
    c6_nonempty_malformed_recovery parse42 ['x'] ['4', '2'] 42 0
      (by decide) (by decide) (by decide) (by decide) (by decide) (by decide)⟩

/-! ## Claim C4: the attach retry policy -/

/-- C4 (confirmed).  Six consecutive connect failures produce exactly five
retries, each after the fixed 1000 ms delay, then a stderr diagnostic and
process exit with the underlying error code; a success after k failures
(k at most 5) cancels all further attempts (the equation holds for every
tail of outcomes, which is never consulted) and runs the connect handler,
which flushes the pending request queue to the target right after the
attach handshake. -/
theorem c4_retry_policy {J : Type} (m : Request) (code : Int) (st : BridgeState J) :
    attachRetryRun m (List.replicate 6 (ConnOutcome.err code)) 0 st
        = ([1000, 1000, 1000, 1000, 1000], .fatal true code) ∧
      (∀ k ≤ 5, ∀ rest : List ConnOutcome,
        attachRetryRun m (List.replicate k (ConnOutcome.err code) ++ .ok :: rest) 0 st
          = (List.replicate k 1000, .live (connectHandler m st))) ∧
      (connectHandler m st).targetWrites
        = st.targetWrites ++ m :: st.bufferedRequests := by
  refine ⟨?_, ?_, ?_⟩
  · simp [attachRetryRun, List.replicate]
  · intro k hk rest
    interval_cases k <;> simp [attachRetryRun, List.replicate]
  · simp [connectHandler, connectCore, forwardBufferedMessages, writeResponseMessage]

/-- Evaluation of c4_retry_policy at a concrete bridge state and request. -/
theorem c4_retry_policy_witness :
    attachRetryRun ⟨7, cmdAttach, none, false⟩
        (List.replicate 6 (ConnOutcome.err 111)) 0 (initState Nat)
        = ([1000, 1000, 1000, 1000, 1000], .fatal true 111) ∧
      attachRetryRun ⟨7, cmdAttach, none, false⟩
        (List.replicate 3 (ConnOutcome.err 111) ++ .ok :: [ConnOutcome.err 111]) 0
        (initState Nat)
        = (List.replicate 3 1000,
            .live (connectHandler ⟨7, cmdAttach, none, false⟩ (initState Nat))) := by
  have h := c4_retry_policy (J := Nat) ⟨7, cmdAttach, none, false⟩ 111 (initState Nat)
  exact ⟨h.1, h.2.1 3 (by decide) [ConnOutcome.err 111]⟩

/-! ## Claim C3: the attach connect handler -/

/-- C3 (confirmed).  When the attach socket connects (with the attach
request pending and nothing yet sent to the target), the handler sends the
original attach request as the first target message, then the buffered
requests in order, then marks the connection established (debugging true,
callback installed), and then writes one synthetic success response whose
request_seq is the attach request's seq.  The resulting state equation
exhibits the handshake strictly before every buffered request in the
target-write trace. -/
theorem c3_attach_connect_order {J : Type} (parse : Chars → Option J)
    (parseReq : Chars → Request) (st : BridgeState J) (m : Request)
    (hrun : st.status = .running) (hpend : st.pendingAttach = some m)
    (hfirst : st.targetWrites = []) :
    step parse parseReq .sockConnect st =
      { st with
        pendingAttach := none
        targetWrites := m :: st.bufferedRequests
        callbackSet := true
        debugging := true
        sequenceNumber := st.sequenceNumber + 1
        clientWrites := st.clientWrites ++
          [.response (st.sequenceNumber + 1) m.seq true m.command] } := by
  have hg : ¬ st.status ≠ ProcStatus.running := by simp [hrun]
  unfold step
  rw [if_neg hg]
  show sockConnectStep st = _
  rw [sockConnectStep, hpend]
  simp [connectHandler, connectCore, forwardBufferedMessages, writeResponseMessage, hfirst]

/-- Evaluation of c3_attach_connect_order at a concrete pending state. -/
theorem c3_attach_connect_order_witness :
    (step parse42 (fun _ => ⟨0, [], none, false⟩) .sockConnect
        { initState Nat with
            pendingAttach := some ⟨9, cmdAttach, none, false⟩
            bufferedRequests := [⟨3, "next".toList, none, false⟩] }).targetWrites
      = [⟨9, cmdAttach, none, false⟩, ⟨3, "next".toList, none, false⟩] := by
  rw [c3_attach_connect_order parse42 (fun _ => ⟨0, [], none, false⟩) _ _ rfl rfl rfl]

/-! ## Claims C8 and C9: the launch path -/

/-- C8 (the code crashes where the claim says it must not fail).  Under
noDebug the child is spawned with only the three standard streams and no
protocol message is ever written (no writeToChild action exists in the
trace), as the claim says; but the action trace ends with the uncaught
TypeError flag set: the code unconditionally registers a data handler on
stdio index 3, which does not exist in the three-entry stdio array, so the
wrapper crashes instead of letting the child run to completion. -/
theorem c8_nodebug_spawn_crash :
    (∀ (stringify : Request → Chars) (s : Nat) (pa : Option Chars) (cmd : Chars),
      launchActions stringify ⟨s, cmd, pa, true⟩ =
        ([.spawn "hhvm".toList hhvmArgs [.pipeSlot, .pipeSlot, .pipeSlot] false,
          .registerExitHandler, .registerErrorHandler,
          .registerStdoutHandler, .registerStderrHandler], true)) ∧
      ∀ (J : Type) (st : BridgeState J) (s : Nat) (pa : Option Chars) (cmd : Chars),
        launchTarget ⟨s, cmd, pa, true⟩ st = { st with status := .crashed } := by
  constructor
  · intro stringify s pa cmd
    simp [launchActions]
  · intro J st s pa cmd
    simp [launchTarget]

/-- C9 (the code sends the protocol to stdin, not to the auxiliary stream).
In debug mode the spawn has four pipe slots and the protocol READ handler
is indeed registered on stdio index 3, but the write callback used for the
launch handshake (and, being installed as debuggerWriteCallback, for every
buffered and forwarded request afterwards) writes the JSON-serialised,
single-NUL-terminated bytes to stdio index 0, the child's stdin. -/
theorem c9_handshake_to_stdin :
    ∀ (stringify : Request → Chars) (s : Nat) (pa : Option Chars) (cmd : Chars),
      launchActions stringify ⟨s, cmd, pa, false⟩ =
        ([.spawn "hhvm".toList hhvmArgs [.pipeSlot, .pipeSlot, .pipeSlot, .pipeSlot] false,
          .registerExitHandler, .registerErrorHandler,
          .registerStdoutHandler, .registerStderrHandler,
          .registerProtocolHandler 3,
          .writeToChild 0 (stringify ⟨s, cmd, pa, false⟩ ++ [NUL])], false) := by
  intro stringify s pa cmd
  simp [launchActions]

/-! ## The client frame loop on whole and partial frames -/

section FrameLemmas

variable {J : Type} (parseReq : Chars → Request)

lemma findSubstr_crlf (hdr rest : Chars) (hcr : '\r' ∉ hdr) :
    findSubstr TWO_CRLF (hdr ++ (TWO_CRLF ++ rest)) = some hdr.length := by
  rw [show TWO_CRLF = '\r' :: ['\n', '\r', '\n'] from rfl]
  exact findSubstr_marker '\r' ['\n', '\r', '\n'] hdr (['\n', '\r', '\n'] ++ rest) hcr
    (isPrefixOf_append_self _ _)

lemma cr_not_mem_header (n : Nat) : '\r' ∉ clHead ++ natDigits n := by
  intro h
  rcases List.mem_append.mp h with h | h
  · exact cr_not_mem_clHead h
  · exact cr_not_mem_natDigits _ h

lemma mkFrame_shape (p tail : Chars) :
    mkFrame p ++ tail
      = (clHead ++ natDigits p.length) ++ (TWO_CRLF ++ (p ++ tail)) := by
  simp [mkFrame, List.append_assoc]

lemma readContentHeader_frame (st : BridgeState J) (p tail : Chars)
    (hbuf : st.currentInputData = mkFrame p ++ tail) :
    readContentHeader st =
      { st with
        currentContentLength := p.length
        currentInputData := p ++ tail
        sequenceNumber := st.sequenceNumber + 1 } := by
  have hmatch := matchCL_self (natDigits p.length)
    (natDigits_all_digits _) (natDigits_ne_nil _)
  have hlen0 : (clHead ++ natDigits p.length).length ≠ 0 := by
    simp [clHead]
  have hdrop : ((clHead ++ natDigits p.length) ++ (TWO_CRLF ++ (p ++ tail))).drop
      ((clHead ++ natDigits p.length).length + TWO_CRLF.length) = p ++ tail := by
    rw [List.drop_append, List.drop_left]
  unfold readContentHeader
  rw [hbuf, mkFrame_shape, findSubstr_crlf _ _ (cr_not_mem_header p.length)]
  simp only [if_neg hlen0, List.take_left, hmatch, hdrop, digitsVal_natDigits]

/-- The dispatch state reached while consuming one whole frame: the header
has been parsed (sequence counter bumped, expected length set), the payload
extracted and parsed, and the resulting request dispatched. -/
def afterDispatch (st : BridgeState J) (p tail : Chars) : BridgeState J :=
  dispatchRequest (parseReq p)
    { st with
      currentContentLength := p.length
      currentInputData := p ++ tail
      sequenceNumber := st.sequenceNumber + 1 }

lemma afterDispatch_input (st : BridgeState J) (p tail : Chars) :
    (afterDispatch parseReq st p tail).currentInputData = p ++ tail ∧
      (afterDispatch parseReq st p tail).currentContentLength = p.length := by
  unfold afterDispatch
  exact dispatchRequest_input _ _

lemma clientIter_frame (st : BridgeState J) (p tail : Chars)
    (hrun : st.status = .running) (hcl : st.currentContentLength = 0)
    (hbuf : st.currentInputData = mkFrame p ++ tail) (hp : p ≠ []) :
    clientIter parseReq st =
      if (afterDispatch parseReq st p tail).status ≠ .running then
        (false, afterDispatch parseReq st p tail)
      else
        (true, { afterDispatch parseReq st p tail with
          currentContentLength := 0
          currentInputData := tail }) := by
  have hg : ¬ st.status ≠ ProcStatus.running := by simp [hrun]
  unfold clientIter
  rw [if_neg hg, if_pos hcl, readContentHeader_frame st p tail hbuf]
  unfold clientIterCore
  rw [if_neg (by simp [hrun])]
  have hplen : p.length ≠ 0 := fun h => hp (List.length_eq_zero.mp h)
  rw [if_neg (by
    simp only [List.length_append, not_or]
    constructor
    · exact hplen
    · omega)]
  simp only [List.take_left]
  have hdrop : (afterDispatch parseReq st p tail).currentInputData.drop p.length = tail := by
    rw [(afterDispatch_input parseReq st p tail).1, List.drop_left]
  by_cases h2 : (afterDispatch parseReq st p tail).status = .running
  · rw [if_neg (by simpa using h2), if_neg (by simpa using h2)]
    show (true, { afterDispatch parseReq st p tail with
        currentContentLength := 0
        currentInputData := (afterDispatch parseReq st p tail).currentInputData.drop p.length })
      = (true, { afterDispatch parseReq st p tail with
        currentContentLength := 0
        currentInputData := tail })
    rw [hdrop]
  · rw [if_pos (by simpa using h2), if_pos (by simpa using h2)]
    rfl

lemma drainClient_iter_false (st s : BridgeState J)
    (h : clientIter parseReq st = (false, s)) : drainClient parseReq st = s := by
  unfold drainClient
  split
  · rename_i s2 heq
    rw [h] at heq
    injection heq with h1 h2
    rw [h2]
  · rename_i s2 heq
    rw [h] at heq
    exact absurd heq (by simp)

lemma drainClient_iter_true (st s : BridgeState J)
    (h : clientIter parseReq st = (true, s)) :
    drainClient parseReq st = drainClient parseReq s := by
  conv_lhs => unfold drainClient
  split
  · rename_i s2 heq
    rw [h] at heq
    exact absurd heq (by simp)
  · rename_i s2 heq
    rw [h] at heq
    injection heq with h1 h2
    rw [h2]

lemma clientIter_dead (st : BridgeState J) (h : st.status ≠ .running) :
    clientIter parseReq st = (false, st) := by
  simp [clientIter, h]

lemma drainClient_dead (st : BridgeState J) (h : st.status ≠ .running) :
    drainClient parseReq st = st :=
  drainClient_iter_false parseReq st st (clientIter_dead parseReq st h)

lemma readContentHeader_blocked (st : BridgeState J)
    (hfind : findSubstr TWO_CRLF st.currentInputData = none ∨
      findSubstr TWO_CRLF st.currentInputData = some 0) :
    readContentHeader st = st := by
  unfold readContentHeader
  rcases hfind with h | h
  · rw [h]
  · rw [h]
    simp

lemma clientIter_blocked_pre (st : BridgeState J)
    (hrun : st.status = .running) (hcl : st.currentContentLength = 0)
    (hfind : findSubstr TWO_CRLF st.currentInputData = none ∨
      findSubstr TWO_CRLF st.currentInputData = some 0) :
    clientIter parseReq st = (false, st) := by
  have hg : ¬ st.status ≠ ProcStatus.running := by simp [hrun]
  unfold clientIter
  rw [if_neg hg, if_pos hcl, readContentHeader_blocked st hfind]
  unfold clientIterCore
  rw [if_neg hg, if_pos (Or.inl hcl)]

lemma drainClient_blocked_pre (st : BridgeState J)
    (hrun : st.status = .running) (hcl : st.currentContentLength = 0)
    (hfind : findSubstr TWO_CRLF st.currentInputData = none ∨
      findSubstr TWO_CRLF st.currentInputData = some 0) :
    drainClient parseReq st = st :=
  drainClient_iter_false parseReq st st (clientIter_blocked_pre parseReq st hrun hcl hfind)

lemma findSubstr_crlf_nil : findSubstr TWO_CRLF ([] : Chars) = none := by
  simp [findSubstr, TWO_CRLF, List.isPrefixOf]

lemma drainClient_nil_input (st : BridgeState J)
    (hcl : st.currentContentLength = 0) (hbuf : st.currentInputData = []) :
    drainClient parseReq st = st := by
  by_cases hrun : st.status = .running
  · exact drainClient_blocked_pre parseReq st hrun hcl (Or.inl (by rw [hbuf]; exact findSubstr_crlf_nil))
  · exact drainClient_dead parseReq st hrun

/-- Consuming one whole leading frame: the drain dispatches its payload and
continues on the tail, unless the dispatch killed the process, in which
case the loop stops with the payload still unconsumed. -/
lemma drainClient_frame (st : BridgeState J) (p tail : Chars)
    (hrun : st.status = .running) (hcl : st.currentContentLength = 0)
    (hbuf : st.currentInputData = mkFrame p ++ tail) (hp : p ≠ []) :
    drainClient parseReq st =
      if (afterDispatch parseReq st p tail).status ≠ .running then
        afterDispatch parseReq st p tail
      else
        drainClient parseReq { afterDispatch parseReq st p tail with
          currentContentLength := 0
          currentInputData := tail } := by
  have hi := clientIter_frame parseReq st p tail hrun hcl hbuf hp
  by_cases h2 : (afterDispatch parseReq st p tail).status = .running
  · rw [if_neg (by simpa using h2)] at hi
    rw [if_neg (by simpa using h2)]
    exact drainClient_iter_true parseReq st _ hi
  · rw [if_pos (by simpa using h2)] at hi
    rw [if_pos (by simpa using h2)]
    exact drainClient_iter_false parseReq st _ hi

end FrameLemmas

/-! ## Dispatch case analysis -/

section DispatchLemmas

variable {J : Type}

/-- A request none of whose commands the wrapper intercepts as a lifecycle
command. -/
def lifecycleFree (r : Request) : Prop :=
  r.command ≠ cmdDisconnect ∧ r.command ≠ cmdLaunch ∧
    r.command ≠ cmdAttach

instance (r : Request) : Decidable (lifecycleFree r) := by
  unfold lifecycleFree
  infer_instance

lemma dispatchRequest_buffered (r : Request) (st : BridgeState J)
    (hfree : lifecycleFree r) (hdbg : st.debugging = false) :
    dispatchRequest r st =
      { st with
        dispatched := st.dispatched ++ [r]
        bufferedRequests := st.bufferedRequests ++ [r] } := by
  obtain ⟨h1, h2, h3⟩ := hfree
  simp [dispatchRequest, handleWrapperRequest, h1, h2, h3, hdbg]

lemma dispatchRequest_forward (r : Request) (st : BridgeState J)
    (hfree : lifecycleFree r) (hdbg : st.debugging = true)
    (hcb : st.callbackSet = true) :
    dispatchRequest r st =
      { st with
        dispatched := st.dispatched ++ [r]
        targetWrites := st.targetWrites ++ [translateNuclideRequest r] } := by
  obtain ⟨h1, h2, h3⟩ := hfree
  simp [dispatchRequest, handleWrapperRequest, h1, h2, h3, hdbg, hcb]

lemma cmd_attach_ne_disconnect : cmdAttach ≠ cmdDisconnect := by decide

lemma cmd_attach_ne_launch : cmdAttach ≠ cmdLaunch := by decide

lemma cmd_launch_ne_disconnect : cmdLaunch ≠ cmdDisconnect := by decide

lemma dispatchRequest_attach (r : Request) (st : BridgeState J)
    (hcmd : r.command = cmdAttach) (hport : r.portArg = none) :
    dispatchRequest r st =
      { st with
        dispatched := st.dispatched ++ [r]
        pendingAttach := some r } := by
  simp [dispatchRequest, handleWrapperRequest, hcmd, cmd_attach_ne_disconnect,
    cmd_attach_ne_launch, attachTargetSync, hport]

lemma dispatchRequest_disconnect (r : Request) (st : BridgeState J)
    (hcmd : r.command = cmdDisconnect) :
    dispatchRequest r st =
      { st with
        dispatched := st.dispatched ++ [r]
        sequenceNumber := st.sequenceNumber + 1
        clientWrites := st.clientWrites ++
          [.response (st.sequenceNumber + 1) r.seq true r.command]
        status := .exited 0 } := by
  simp [dispatchRequest, handleWrapperRequest, hcmd, writeResponseMessage]

lemma dispatchRequest_launch (r : Request) (st : BridgeState J)
    (hcmd : r.command = cmdLaunch) (hnd : r.noDebug = false) :
    dispatchRequest r st =
      { st with
        dispatched := st.dispatched ++ [r]
        targetWrites := st.targetWrites ++ [r] ++ st.bufferedRequests
        callbackSet := true
        debugging := true } := by
  simp [dispatchRequest, handleWrapperRequest, hcmd, cmd_launch_ne_disconnect,
    launchTarget, hnd, connectCore, forwardBufferedMessages]

/-- The connect handler with a pending attach request, fully evaluated. -/
lemma sockConnectStep_pending (st : BridgeState J) (m : Request)
    (hpend : st.pendingAttach = some m) :
    sockConnectStep st =
      { st with
        pendingAttach := none
        targetWrites := st.targetWrites ++ m :: st.bufferedRequests
        callbackSet := true
        debugging := true
        sequenceNumber := st.sequenceNumber + 1
        clientWrites := st.clientWrites ++
          [.response (st.sequenceNumber + 1) m.seq true m.command] } := by
  rw [sockConnectStep, hpend]
  simp [connectHandler, connectCore, forwardBufferedMessages, writeResponseMessage,
    List.append_assoc]

/-- After the connection is up, dispatching a request whose command is not
launch or attach never reads or writes the buffered-requests array. -/
lemma dispatchRequest_unforwarded (r : Request) (st : BridgeState J)
    (hfree : lifecycleFree r) (hdbg : st.debugging = true)
    (hcb : st.callbackSet = false) :
    dispatchRequest r st = { st with dispatched := st.dispatched ++ [r] } := by
  obtain ⟨h1, h2, h3⟩ := hfree
  simp [dispatchRequest, handleWrapperRequest, h1, h2, h3, hdbg, hcb]

lemma dispatchRequest_buffer_frame (r : Request) (st : BridgeState J)
    (b : List Request) (hdbg : st.debugging = true)
    (h2 : r.command ≠ cmdLaunch) (h3 : r.command ≠ cmdAttach) :
    dispatchRequest r { st with bufferedRequests := b }
      = { dispatchRequest r st with bufferedRequests := b } := by
  by_cases h1 : r.command = cmdDisconnect
  · rw [dispatchRequest_disconnect r st h1,
      dispatchRequest_disconnect r { st with bufferedRequests := b } h1]
  · by_cases hcb : st.callbackSet = true
    · rw [dispatchRequest_forward r st ⟨h1, h2, h3⟩ hdbg hcb,
        dispatchRequest_forward r { st with bufferedRequests := b } ⟨h1, h2, h3⟩ hdbg hcb]
    · have hcb2 : st.callbackSet = false := by simpa using hcb
      rw [dispatchRequest_unforwarded r st ⟨h1, h2, h3⟩ hdbg hcb2,
        dispatchRequest_unforwarded r { st with bufferedRequests := b } ⟨h1, h2, h3⟩ hdbg hcb2]

end DispatchLemmas

/-! ## Whole-frame steps and the buffering phase -/

section RunLemmas

variable {J : Type} (parse : Chars → Option J) (parseReq : Chars → Request)

lemma run_nil (st : BridgeState J) : run parse parseReq [] st = st := rfl

lemma run_cons (e : Ev) (es : List Ev) (st : BridgeState J) :
    run parse parseReq (e :: es) st
      = run parse parseReq es (step parse parseReq e st) := rfl

lemma run_append (es1 es2 : List Ev) (st : BridgeState J) :
    run parse parseReq (es1 ++ es2) st
      = run parse parseReq es2 (run parse parseReq es1 st) :=
  List.foldl_append _ _ _ _

lemma step_frame (st : BridgeState J) (p : Chars)
    (hrun : st.status = .running) (hcl : st.currentContentLength = 0)
    (hbuf : st.currentInputData = []) (hp : p ≠ []) :
    step parse parseReq (.clientData (mkFrame p)) st =
      if (afterDispatch parseReq st p []).status ≠ .running then
        afterDispatch parseReq st p []
      else
        { afterDispatch parseReq st p [] with
          currentContentLength := 0
          currentInputData := [] } := by
  have hg : ¬ st.status ≠ ProcStatus.running := by simp [hrun]
  unfold step
  rw [if_neg hg]
  show processClientMessage parseReq (mkFrame p) st = _
  unfold processClientMessage
  have hbuf2 : ({ st with currentInputData := st.currentInputData ++ mkFrame p }
      : BridgeState J).currentInputData = mkFrame p ++ [] := by
    simp [hbuf]
  have h := drainClient_frame parseReq
    { st with currentInputData := st.currentInputData ++ mkFrame p } p [] hrun hcl hbuf2 hp
  rw [show afterDispatch parseReq
      { st with currentInputData := st.currentInputData ++ mkFrame p } p []
      = afterDispatch parseReq st p [] from rfl] at h
  rw [h]
  by_cases h2 : (afterDispatch parseReq st p []).status ≠ ProcStatus.running
  · rw [if_pos h2, if_pos h2]
  · rw [if_neg h2, if_neg h2]
    exact drainClient_nil_input parseReq _ rfl rfl

/-- Requests arriving as whole frames before any lifecycle command are
buffered in arrival order, with one header-parse counter bump each, and
nothing is sent anywhere. -/
lemma run_buffering (pbs : List Chars) (st : BridgeState J)
    (hpbs : ∀ pb ∈ pbs, pb ≠ [] ∧ lifecycleFree (parseReq pb))
    (hrun : st.status = .running) (hdbg : st.debugging = false)
    (hcl : st.currentContentLength = 0) (hbuf : st.currentInputData = []) :
    run parse parseReq (pbs.map (fun pb => Ev.clientData (mkFrame pb))) st =
      { st with
        bufferedRequests := st.bufferedRequests ++ pbs.map parseReq
        dispatched := st.dispatched ++ pbs.map parseReq
        sequenceNumber := st.sequenceNumber + pbs.length } := by
  induction pbs generalizing st with
  | nil =>
    simp [run_nil]
  | cons pb pbs ih =>
    obtain ⟨hpne, hfree⟩ := hpbs pb (List.mem_cons_self _ _)
    have hAD : afterDispatch parseReq st pb [] =
        { st with
          currentContentLength := pb.length
          currentInputData := pb ++ []
          sequenceNumber := st.sequenceNumber + 1
          dispatched := st.dispatched ++ [parseReq pb]
          bufferedRequests := st.bufferedRequests ++ [parseReq pb] } := by
      unfold afterDispatch
      rw [dispatchRequest_buffered (parseReq pb)
        { st with
          currentContentLength := pb.length
          currentInputData := pb ++ []
          sequenceNumber := st.sequenceNumber + 1 } hfree hdbg]
    have hADrun : ¬ (afterDispatch parseReq st pb []).status ≠ ProcStatus.running := by
      rw [hAD]
      simp [hrun]
    have hstep := step_frame parse parseReq st pb hrun hcl hbuf hpne
    rw [if_neg hADrun, hAD] at hstep
    have hstep2 : step parse parseReq (Ev.clientData (mkFrame pb)) st =
        { st with
          currentContentLength := 0
          currentInputData := []
          sequenceNumber := st.sequenceNumber + 1
          dispatched := st.dispatched ++ [parseReq pb]
          bufferedRequests := st.bufferedRequests ++ [parseReq pb] } := by
      rw [hstep]
    rw [List.map_cons, run_cons, hstep2,
      ih { st with
          currentContentLength := 0
          currentInputData := []
          sequenceNumber := st.sequenceNumber + 1
          dispatched := st.dispatched ++ [parseReq pb]
          bufferedRequests := st.bufferedRequests ++ [parseReq pb] }
        (fun pb h => hpbs pb (List.mem_cons_of_mem _ h)) hrun hdbg rfl rfl]
    simp only [BridgeState.mk.injEq, List.append_assoc, List.singleton_append,
      List.length_cons, List.map_cons]
    simp [hcl, hbuf]
    omega

lemma step_frame_buffer_swap (st : BridgeState J) (pb : Chars) (b : List Request)
    (hdbg : st.debugging = true) (hrun : st.status = .running)
    (hcl : st.currentContentLength = 0) (hbuf : st.currentInputData = [])
    (hpb : pb ≠ []) (h2 : (parseReq pb).command ≠ cmdLaunch)
    (h3 : (parseReq pb).command ≠ cmdAttach) :
    step parse parseReq (Ev.clientData (mkFrame pb)) { st with bufferedRequests := b }
      = { step parse parseReq (Ev.clientData (mkFrame pb)) st with
          bufferedRequests := b } := by
  have hswap : afterDispatch parseReq { st with bufferedRequests := b } pb []
      = { afterDispatch parseReq st pb [] with bufferedRequests := b } := by
    have h := dispatchRequest_buffer_frame (parseReq pb)
      ({ st with
          currentContentLength := pb.length
          currentInputData := pb ++ []
          sequenceNumber := st.sequenceNumber + 1 } : BridgeState J) b hdbg h2 h3
    exact h
  have hA := step_frame parse parseReq st pb hrun hcl hbuf hpb
  have hB := step_frame parse parseReq { st with bufferedRequests := b } pb hrun hcl hbuf hpb
  rw [hB, hA, hswap]
  by_cases hst : (afterDispatch parseReq st pb []).status ≠ ProcStatus.running
  · rw [if_pos hst,
      if_pos (show ({ afterDispatch parseReq st pb [] with bufferedRequests := b }
        : BridgeState J).status ≠ ProcStatus.running from hst)]
  · rw [if_neg hst,
      if_neg (show ¬ ({ afterDispatch parseReq st pb [] with bufferedRequests := b }
        : BridgeState J).status ≠ ProcStatus.running from hst)]

lemma step_targetData_buffer_swap (st : BridgeState J) (c : Chars) (b : List Request) :
    step parse parseReq (Ev.targetData c) { st with bufferedRequests := b }
      = { step parse parseReq (Ev.targetData c) st with bufferedRequests := b } := by
  unfold step
  by_cases hrun : st.status ≠ ProcStatus.running
  · rw [if_pos hrun,
      if_pos (show ({ st with bufferedRequests := b } : BridgeState J).status
        ≠ ProcStatus.running from hrun)]
  · rw [if_neg hrun,
      if_neg (show ¬ ({ st with bufferedRequests := b } : BridgeState J).status
        ≠ ProcStatus.running from hrun)]
    show processDebuggerMessage parse c { st with bufferedRequests := b } = _
    unfold processDebuggerMessage
    rfl

end RunLemmas

/-! ## Claim C1: FIFO buffering and a single drain -/

/-- The canonical buffering run: non-lifecycle frames, one attach frame,
then the socket connect event, computed to the resulting state. -/
lemma run_buffer_attach_connect {J : Type} (parse : Chars → Option J)
    (parseReq : Chars → Request) (pbs : List Chars) (pbm : Chars)
    (hpbs : ∀ pb ∈ pbs, pb ≠ [] ∧ lifecycleFree (parseReq pb))
    (hm : pbm ≠ []) (hmc : (parseReq pbm).command = cmdAttach)
    (hmp : (parseReq pbm).portArg = none) :
    run parse parseReq
        (pbs.map (fun pb => Ev.clientData (mkFrame pb))
          ++ [Ev.clientData (mkFrame pbm), Ev.sockConnect]) (initState J)
      = ⟨pbs.length + 2, [], [], 0, pbs.map parseReq, true, true, none, .running,
          [ClientMsg.response (pbs.length + 2) (parseReq pbm).seq true (parseReq pbm).command],
          parseReq pbm :: pbs.map parseReq, [], pbs.map parseReq ++ [parseReq pbm]⟩ := by
  have h1 : run parse parseReq
      (pbs.map (fun pb => Ev.clientData (mkFrame pb))) (initState J)
      = ⟨pbs.length, [], [], 0, pbs.map parseReq, false, false, none, .running,
          [], [], [], pbs.map parseReq⟩ := by
    rw [run_buffering parse parseReq pbs (initState J) hpbs rfl rfl rfl rfl]
    simp [initState]
  have hAD : afterDispatch parseReq
      (⟨pbs.length, [], [], 0, pbs.map parseReq, false, false, none, .running,
        [], [], [], pbs.map parseReq⟩ : BridgeState J) pbm []
      = ⟨pbs.length + 1, [], pbm ++ [], pbm.length, pbs.map parseReq, false, false,
          some (parseReq pbm), .running, [], [], [],
          pbs.map parseReq ++ [parseReq pbm]⟩ := by
    unfold afterDispatch
    rw [dispatchRequest_attach (parseReq pbm) _ hmc hmp]
  have hstepm := step_frame parse parseReq
    (⟨pbs.length, [], [], 0, pbs.map parseReq, false, false, none, .running,
      [], [], [], pbs.map parseReq⟩ : BridgeState J) pbm rfl rfl rfl hm
  rw [hAD] at hstepm
  rw [if_neg (by simp)] at hstepm
  have hstepm2 : step parse parseReq (Ev.clientData (mkFrame pbm))
      (⟨pbs.length, [], [], 0, pbs.map parseReq, false, false, none, .running,
        [], [], [], pbs.map parseReq⟩ : BridgeState J)
      = ⟨pbs.length + 1, [], [], 0, pbs.map parseReq, false, false,
          some (parseReq pbm), .running, [], [], [],
          pbs.map parseReq ++ [parseReq pbm]⟩ := by
    rw [hstepm]
  have hconn : step parse parseReq Ev.sockConnect
      (⟨pbs.length + 1, [], [], 0, pbs.map parseReq, false, false,
        some (parseReq pbm), .running, [], [], [],
        pbs.map parseReq ++ [parseReq pbm]⟩ : BridgeState J)
      = ⟨pbs.length + 2, [], [], 0, pbs.map parseReq, true, true, none, .running,
          [ClientMsg.response (pbs.length + 2) (parseReq pbm).seq true
            (parseReq pbm).command],
          parseReq pbm :: pbs.map parseReq, [],
          pbs.map parseReq ++ [parseReq pbm]⟩ := by
    unfold step
    rw [if_neg (by simp)]
    show sockConnectStep _ = _
    rw [sockConnectStep_pending _ (parseReq pbm) rfl]
    rfl
  rw [run_append, h1, run_cons, hstepm2, run_cons, hconn, run_nil]

/-- C1 (confirmed).  Starting from the initial bridge state, deliver any
requests with non-lifecycle commands as well-formed frames, then an attach
frame, then the socket connect event.  The final state equation shows: the
target received exactly the attach handshake followed by the buffered
requests in arrival order, each exactly once (the target-write trace IS
that list); the queue array still holds them but the connection is marked
up.  The two trailing conjuncts show the queue is never touched after the
drain: once debugging is set, processing any further well-formed frame
whose command is not launch or attach, or any target data, neither reads
nor writes bufferedRequests (the step commutes with replacing the queue by
an arbitrary list b). -/
theorem c1_fifo_buffer_drain {J : Type} (parse : Chars → Option J)
    (parseReq : Chars → Request) (pbs : List Chars) (pbm : Chars)
    (hpbs : ∀ pb ∈ pbs, pb ≠ [] ∧ lifecycleFree (parseReq pb))
    (hm : pbm ≠ []) (hmc : (parseReq pbm).command = cmdAttach)
    (hmp : (parseReq pbm).portArg = none) :
    run parse parseReq
        (pbs.map (fun pb => Ev.clientData (mkFrame pb))
          ++ [Ev.clientData (mkFrame pbm), Ev.sockConnect]) (initState J)
      = ⟨pbs.length + 2, [], [], 0, pbs.map parseReq, true, true, none, .running,
          [ClientMsg.response (pbs.length + 2) (parseReq pbm).seq true (parseReq pbm).command],
          parseReq pbm :: pbs.map parseReq, [], pbs.map parseReq ++ [parseReq pbm]⟩ ∧
      (∀ (st : BridgeState J) (pb : Chars) (b : List Request),
        st.debugging = true → st.status = .running →
        st.currentContentLength = 0 → st.currentInputData = [] →
        pb ≠ [] → (parseReq pb).command ≠ cmdLaunch →
        (parseReq pb).command ≠ cmdAttach →
        step parse parseReq (Ev.clientData (mkFrame pb)) { st with bufferedRequests := b }
          = { step parse parseReq (Ev.clientData (mkFrame pb)) st with
              bufferedRequests := b }) ∧
      (∀ (st : BridgeState J) (c : Chars) (b : List Request),
        step parse parseReq (Ev.targetData c) { st with bufferedRequests := b }
          = { step parse parseReq (Ev.targetData c) st with bufferedRequests := b }) := by
  refine ⟨run_buffer_attach_connect parse parseReq pbs pbm hpbs hm hmc hmp, ?_, ?_⟩
  · intro st pb b hdbg hrun hcl hbuf hpb h2 h3
    exact step_frame_buffer_swap parse parseReq st pb b hdbg hrun hcl hbuf hpb h2 h3
  · intro st c b
    exact step_targetData_buffer_swap parse parseReq st c b

/-- The concrete payload decoder used to evaluate the run-level claims:
payload q is a plain step request, payload a is an attach request, payload
n is a legacy-prefixed request. -/
def demoReq : Chars → Request := fun s =>
  if s = ['q'] then ⟨1, "stepIn".toList, none, false⟩
  else if s = ['a'] then ⟨2, cmdAttach, none, false⟩
  else if s = ['n'] then ⟨3, "nuclide_continue".toList, none, false⟩
  else ⟨0, [], none, false⟩

/-- Evaluation of c1_fifo_buffer_drain on one buffered request and one
attach request. -/
theorem c1_fifo_buffer_drain_witness :
    (run parse42 demoReq
        ([['q']].map (fun pb => Ev.clientData (mkFrame pb))
          ++ [Ev.clientData (mkFrame ['a']), Ev.sockConnect]) (initState Nat)).targetWrites
      = [demoReq ['a'], demoReq ['q']] := by
  have h := c1_fifo_buffer_drain parse42 demoReq [['q']] ['a']
    (by decide) (by decide) (by decide) (by decide)
  rw [h.1]
  rfl

/-! ## Claim C5: command-name translation (corrected) -/

/-- C5 counterexample.  A request whose command carries the legacy nuclide
marker, received BEFORE the target connection exists, is buffered and then
forwarded to the target verbatim when the connection comes up: the run
delivers a nuclide-prefixed request and an attach request, and the target
trace contains the nuclide request with its legacy prefix intact (its
translation would differ), contradicting the claim that every inbound
legacy-prefixed command is transmitted with the prefix replaced. -/
theorem c5_counterexample :
    (run parse42 demoReq
        ([['n']].map (fun pb => Ev.clientData (mkFrame pb))
          ++ [Ev.clientData (mkFrame ['a']), Ev.sockConnect]) (initState Nat)).targetWrites
      = [demoReq ['a'], demoReq ['n']] ∧
    nuclideMark.isPrefixOf (demoReq ['n']).command = true ∧
    translateNuclideRequest (demoReq ['n']) ≠ demoReq ['n'] := by
  refine ⟨?_, by decide, by decide⟩
  rw [run_buffer_attach_connect parse42 demoReq [['n']] ['a']
    (by decide) (by decide) (by decide) (by decide)]
  rfl

/-- C5 amended (proved).  Translation applies only on the direct forwarding
path: a command with the legacy nuclide marker has it replaced by the fb
marker, other commands pass unchanged, and translation is idempotent
(a translated command no longer matches the legacy marker); a request
dispatched while the connection is up and the write callback installed is
transmitted as its translation; but requests flushed from the pending
queue by forwardBufferedMessages are sent verbatim, untranslated. -/
theorem c5_translate_shim {J : Type} (r : Request) (st : BridgeState J) :
    (nuclideMark.isPrefixOf r.command = true →
      (translateNuclideRequest r).command
        = fbMark ++ r.command.drop nuclideMark.length) ∧
    (nuclideMark.isPrefixOf r.command = false → translateNuclideRequest r = r) ∧
    translateNuclideRequest (translateNuclideRequest r) = translateNuclideRequest r ∧
    (lifecycleFree r → st.debugging = true → st.callbackSet = true →
      dispatchRequest r st =
        { st with
          dispatched := st.dispatched ++ [r]
          targetWrites := st.targetWrites ++ [translateNuclideRequest r] }) ∧
    (st.callbackSet = true →
      forwardBufferedMessages st
        = { st with targetWrites := st.targetWrites ++ st.bufferedRequests }) := by
  refine ⟨fun h => translate_of_mark h, fun h => translate_of_not_mark h,
    translate_idem r, ?_, ?_⟩
  · intro hfree hdbg hcb
    exact dispatchRequest_forward r st hfree hdbg hcb
  · intro hcb
    simp [forwardBufferedMessages, hcb]

/-- Evaluation of c5_translate_shim at a concrete legacy-prefixed request. -/
theorem c5_translate_shim_witness :
    (translateNuclideRequest (demoReq ['n'])).command
      = fbMark ++ (demoReq ['n']).command.drop nuclideMark.length :=
  (c5_translate_shim (J := Nat) (demoReq ['n']) (initState Nat)).1 (by decide)

/-! ## Claim C2: the outbound sequence counter -/

section SeqInvariant

variable {J : Type} (parse : Chars → Option J) (parseReq : Chars → Request)

/-- The outbound-sequence invariant: client writes carry strictly increasing
sequence numbers, all bounded by the current counter. -/
def SeqOK (st : BridgeState J) : Prop :=
  List.Pairwise (· < ·) (st.clientWrites.map ClientMsg.seqOf) ∧
    ∀ w ∈ st.clientWrites, ClientMsg.seqOf w ≤ st.sequenceNumber

/-- Whether readContentHeader will consume a header (separator found beyond
index zero and the Content-Length regex matches). -/
def headerReady (st : BridgeState J) : Bool :=
  match findSubstr TWO_CRLF st.currentInputData with
  | none => false
  | some idx => idx ≠ 0 && (matchCL (st.currentInputData.take idx)).isSome

lemma drainOutput_no_nul (buf : Chars) (seq : Nat)
    (h : findSubstr [NUL] buf = none) :
    drainOutput parse buf seq = (buf, seq, [], []) := by
  unfold drainOutput
  split
  · rename_i idx hidx
    rw [h] at hidx
    exact absurd hidx (by simp)
  · rfl

lemma drainOutput_at_zero (buf : Chars) (seq : Nat)
    (h : findSubstr [NUL] buf = some 0) :
    drainOutput parse buf seq = (buf, seq, [], []) := by
  obtain ⟨hocc, hle⟩ := findSubstr_occ h
  cases buf with
  | nil => exact drainOutput_nil parse seq
  | cons c t =>
    have hc : NUL = c := by
      simpa [List.isPrefixOf] using hocc
    rw [← hc]
    exact drainOutput_nul_head parse t seq

lemma findSubstr_single_not_mem_take {c : Char} {l : Chars} {i : Nat}
    (h : findSubstr [c] l = some i) : c ∉ l.take i := by
  induction l generalizing i with
  | nil =>
    simp [findSubstr, List.isPrefixOf] at h
  | cons d rest ih =>
    simp only [findSubstr] at h
    split at h
    · obtain rfl : (0 : Nat) = i := Option.some.inj h
      simp
    · rename_i hnp
      rcases Option.map_eq_some'.mp h with ⟨j, hj, rfl⟩
      have hd : c ≠ d := by
        intro he
        apply hnp
        subst he
        simp [List.isPrefixOf]
      intro hmem
      rw [List.take_succ_cons] at hmem
      rcases List.mem_cons.mp hmem with he | hmem
      · exact hd he
      · exact ih hj hmem

/-- Decompose a buffer at the first NUL found at a positive index. -/
lemma buf_split_at_nul {buf : Chars} {idx : Nat}
    (hidx : findSubstr [NUL] buf = some idx) (hpos : 0 < idx) :
    ∃ msg rest, buf = msg ++ NUL :: rest ∧ msg.length = idx ∧ NUL ∉ msg ∧ msg ≠ [] := by
  obtain ⟨hocc, hle⟩ := findSubstr_occ hidx
  have htlen : (buf.take idx).length = idx := by
    rw [List.length_take]
    simp only [List.length_singleton] at hle
    omega
  have hdropeq : buf.drop idx = NUL :: buf.drop (idx + 1) := by
    cases hbd : buf.drop idx with
    | nil =>
      rw [hbd] at hocc
      simp [List.isPrefixOf] at hocc
    | cons c t =>
      rw [hbd] at hocc
      simp only [List.isPrefixOf, Bool.and_eq_true, beq_iff_eq] at hocc
      have ht : t = buf.drop (idx + 1) := by
        have htl := List.tail_drop buf idx
        rw [hbd] at htl
        simpa using htl
      rw [ht, hocc.1]
  refine ⟨buf.take idx, buf.drop (idx + 1), ?_, htlen,
    findSubstr_single_not_mem_take hidx, ?_⟩
  · conv_lhs => rw [← List.take_append_drop idx buf]
    rw [hdropeq]
  · intro he
    rw [he] at htlen
    simp at htlen
    omega

lemma drainOutput_seq (buf : Chars) (seq : Nat) :
    seq ≤ (drainOutput parse buf seq).2.1 ∧
      List.Pairwise (· < ·) ((drainOutput parse buf seq).2.2.1.map Prod.fst) ∧
      ∀ w ∈ (drainOutput parse buf seq).2.2.1,
        seq < w.1 ∧ w.1 ≤ (drainOutput parse buf seq).2.1 := by
  suffices h : ∀ (n : Nat) (buf : Chars), buf.length ≤ n → ∀ (seq : Nat),
      seq ≤ (drainOutput parse buf seq).2.1 ∧
        List.Pairwise (· < ·) ((drainOutput parse buf seq).2.2.1.map Prod.fst) ∧
        ∀ w ∈ (drainOutput parse buf seq).2.2.1,
          seq < w.1 ∧ w.1 ≤ (drainOutput parse buf seq).2.1 by
    exact h buf.length buf le_rfl seq
  intro n
  induction n with
  | zero =>
    intro buf hlen seq
    have hbuf : buf = [] := List.length_eq_zero.mp (Nat.le_zero.mp hlen)
    subst hbuf
    rw [drainOutput_nil]
    simp
  | succ n ih =>
    intro buf hlen seq
    rcases hidx : findSubstr [NUL] buf with _ | idx
    · rw [drainOutput_no_nul parse buf seq hidx]
      simp
    · by_cases hpos : 0 < idx
      · obtain ⟨msg, rest, hbufeq, hmsglen, hmsgnul, hmsgne⟩ :=
          buf_split_at_nul hidx hpos
        subst hbufeq
        have hrest : rest.length ≤ n := by
          simp only [List.length_append, List.length_cons] at hlen
          omega
        cases hobj : parse msg with
        | some obj =>
          rw [drainOutput_cons_ok parse msg rest seq obj hmsgne hmsgnul hobj]
          obtain ⟨ihm, ihp, ihw⟩ := ih rest hrest (seq + 1)
          refine ⟨Nat.le_trans (Nat.le_succ seq) ihm, ?_, ?_⟩
          · simp only [List.map_cons]
            rw [List.pairwise_cons]
            exact ⟨fun b hb => by
              rcases List.mem_map.mp hb with ⟨w, hw, rfl⟩
              exact (ihw w hw).1, ihp⟩
          · intro w hw
            simp only [List.mem_cons] at hw
            rcases hw with rfl | hw
            · exact ⟨Nat.lt_succ_self seq, ihm⟩
            · obtain ⟨hlt, hle2⟩ := ihw w hw
              exact ⟨Nat.lt_of_succ_lt hlt, hle2⟩
        | none =>
          rw [drainOutput_cons_err parse msg rest seq hmsgne hmsgnul hobj]
          obtain ⟨ihm, ihp, ihw⟩ := ih rest hrest seq
          exact ⟨ihm, ihp, fun w hw => ihw w hw⟩
      · have hz : idx = 0 := by omega
        subst hz
        rw [drainOutput_at_zero parse buf seq hidx]
        simp


lemma map_seqOf_forwarded (ws : List (Nat × J)) :
    (ws.map (fun p => (ClientMsg.forwarded p.1 p.2 : ClientMsg J))).map
        ClientMsg.seqOf = ws.map Prod.fst := by
  induction ws with
  | nil => rfl
  | cons w ws ih => simp [ih, ClientMsg.seqOf]

lemma seqOK_writeResponse (rs : Nat) (su : Bool) (cmd : Chars)
    (st : BridgeState J) (h : SeqOK st) :
    SeqOK (writeResponseMessage rs su cmd st) := by
  obtain ⟨h1, h2⟩ := h
  constructor
  · simp only [writeResponseMessage, List.map_append, List.map_cons, List.map_nil]
    rw [List.pairwise_append]
    refine ⟨h1, by simp, ?_⟩
    intro a ha b hb
    simp only [List.mem_singleton, ClientMsg.seqOf] at hb
    subst hb
    rcases List.mem_map.mp ha with ⟨w, hw, rfl⟩
    exact Nat.lt_succ_of_le (h2 w hw)
  · intro w hw
    simp only [writeResponseMessage, List.mem_append, List.mem_singleton] at hw
    rcases hw with hw | rfl
    · exact Nat.le_succ_of_le (h2 w hw)
    · simp [ClientMsg.seqOf, writeResponseMessage]

lemma seqOK_writeOutputEvent (cat msg : Chars) (st : BridgeState J) (h : SeqOK st) :
    SeqOK (writeOutputEvent cat msg st) := by
  obtain ⟨h1, h2⟩ := h
  constructor
  · simp only [writeOutputEvent, List.map_append, List.map_cons, List.map_nil]
    rw [List.pairwise_append]
    refine ⟨h1, by simp, ?_⟩
    intro a ha b hb
    simp only [List.mem_singleton, ClientMsg.seqOf] at hb
    subst hb
    rcases List.mem_map.mp ha with ⟨w, hw, rfl⟩
    exact Nat.lt_succ_of_le (h2 w hw)
  · intro w hw
    simp only [writeOutputEvent, List.mem_append, List.mem_singleton] at hw
    rcases hw with hw | rfl
    · exact Nat.le_succ_of_le (h2 w hw)
    · simp [ClientMsg.seqOf, writeOutputEvent]

lemma seqOK_processDebuggerMessage (c : Chars) (st : BridgeState J) (h : SeqOK st) :
    SeqOK (processDebuggerMessage parse c st) := by
  obtain ⟨h1, h2⟩ := h
  obtain ⟨hm, hp, hw⟩ := drainOutput_seq parse (st.currentOutputData ++ c)
    st.sequenceNumber
  constructor
  · simp only [processDebuggerMessage, List.map_append, map_seqOf_forwarded]
    rw [List.pairwise_append]
    refine ⟨h1, hp, ?_⟩
    intro a ha b hb
    rcases List.mem_map.mp ha with ⟨w, hwmem, rfl⟩
    rcases List.mem_map.mp hb with ⟨v, hvmem, rfl⟩
    exact Nat.lt_of_le_of_lt (h2 w hwmem) (hw v hvmem).1
  · intro w hwmem
    simp only [processDebuggerMessage, List.mem_append] at hwmem
    rcases hwmem with hwmem | hwmem
    · exact Nat.le_trans (h2 w hwmem) hm
    · rcases List.mem_map.mp hwmem with ⟨v, hvmem, rfl⟩
      exact (hw v hvmem).2

lemma readContentHeader_seq_clientWrites (st : BridgeState J) :
    st.sequenceNumber ≤ (readContentHeader st).sequenceNumber ∧
      (readContentHeader st).clientWrites = st.clientWrites := by
  unfold readContentHeader
  split
  · exact ⟨le_rfl, rfl⟩
  · split
    · exact ⟨le_rfl, rfl⟩
    · split
      · exact ⟨le_rfl, rfl⟩
      · exact ⟨Nat.le_succ _, rfl⟩

lemma seqOK_readContentHeader (st : BridgeState J) (h : SeqOK st) :
    SeqOK (readContentHeader st) := by
  obtain ⟨hmono, heq⟩ := readContentHeader_seq_clientWrites st
  obtain ⟨h1, h2⟩ := h
  exact ⟨by rw [heq]; exact h1,
    fun w hw => Nat.le_trans (h2 w (heq ▸ hw)) hmono⟩

lemma seqOK_handleWrapperRequest (r : Request) (st : BridgeState J) (h : SeqOK st) :
    SeqOK (handleWrapperRequest r st).2 := by
  simp only [handleWrapperRequest, launchTarget, connectCore, forwardBufferedMessages,
    attachTargetSync]
  repeat' split
  all_goals first
    | exact h
    | exact seqOK_writeResponse _ _ _ _ h

lemma seqOK_dispatchRequest (r : Request) (st : BridgeState J) (h : SeqOK st) :
    SeqOK (dispatchRequest r st) := by
  have h0 : SeqOK ({ st with dispatched := st.dispatched ++ [r] } : BridgeState J) := h
  have h1 := seqOK_handleWrapperRequest r { st with dispatched := st.dispatched ++ [r] } h0
  simp only [dispatchRequest]
  rcases hw : handleWrapperRequest r { st with dispatched := st.dispatched ++ [r] }
    with ⟨b, st1⟩
  rw [hw] at h1
  cases b
  · simp only
    split
    · exact h1
    · exact h1
  · exact h1

lemma seqOK_clientIterCore (st1 : BridgeState J) (b : Bool) (s : BridgeState J)
    (hiter : clientIterCore parseReq st1 = (b, s)) (h : SeqOK st1) : SeqOK s := by
  simp only [clientIterCore] at hiter
  split at hiter
  · injection hiter with hb hs
    subst hs
    exact h
  split at hiter
  · injection hiter with hb hs
    subst hs
    exact h
  split at hiter
  · injection hiter with hb hs
    subst hs
    exact seqOK_dispatchRequest _ st1 h
  · injection hiter with hb hs
    subst hs
    exact seqOK_dispatchRequest _ st1 h

lemma seqOK_clientIter (st : BridgeState J) (b : Bool) (s : BridgeState J)
    (hiter : clientIter parseReq st = (b, s)) (h : SeqOK st) : SeqOK s := by
  unfold clientIter at hiter
  split at hiter
  · injection hiter with hb hs
    subst hs
    exact h
  · refine seqOK_clientIterCore parseReq _ b s hiter ?_
    split
    · exact seqOK_readContentHeader st h
    · exact h

lemma seqOK_drainClient (st : BridgeState J) (h : SeqOK st) :
    SeqOK (drainClient parseReq st) := by
  suffices hgen : ∀ (n : Nat) (st : BridgeState J), st.currentInputData.length ≤ n →
      SeqOK st → SeqOK (drainClient parseReq st) from
    hgen st.currentInputData.length st le_rfl h
  intro n
  induction n with
  | zero =>
    intro st hlen hok
    rcases hiter : clientIter parseReq st with ⟨b, s⟩
    cases b
    · rw [drainClient_iter_false parseReq st s hiter]
      exact seqOK_clientIter parseReq st false s hiter hok
    · have := clientIter_decreases parseReq st s hiter
      omega
  | succ n ih =>
    intro st hlen hok
    rcases hiter : clientIter parseReq st with ⟨b, s⟩
    cases b
    · rw [drainClient_iter_false parseReq st s hiter]
      exact seqOK_clientIter parseReq st false s hiter hok
    · rw [drainClient_iter_true parseReq st s hiter]
      have hdec := clientIter_decreases parseReq st s hiter
      exact ih s (by omega) (seqOK_clientIter parseReq st true s hiter hok)

lemma seqOK_step (e : Ev) (st : BridgeState J) (h : SeqOK st) :
    SeqOK (step parse parseReq e st) := by
  unfold step
  split
  · exact h
  · cases e with
    | clientData c =>
      have h2 : SeqOK ({ st with currentInputData := st.currentInputData ++ c }
          : BridgeState J) := h
      exact seqOK_drainClient parseReq _ h2
    | sockConnect =>
      unfold sockConnectStep
      rcases hp : st.pendingAttach with _ | m
      · exact h
      · show SeqOK (connectHandler m { st with pendingAttach := none })
        have h2 : SeqOK ({ st with pendingAttach := none } : BridgeState J) := h
        unfold connectHandler
        apply seqOK_writeResponse
        simp only [connectCore, forwardBufferedMessages]
        split
        · exact h2
        · exact h2
    | targetData c => exact seqOK_processDebuggerMessage parse c st h
    | childStdout c => exact seqOK_writeOutputEvent _ _ st h
    | childStderr c => exact seqOK_writeOutputEvent _ _ st h

lemma seqOK_run (es : List Ev) (st : BridgeState J) (h : SeqOK st) :
    SeqOK (run parse parseReq es st) := by
  induction es generalizing st with
  | nil => exact h
  | cons e es ih => exact ih _ (seqOK_step parse parseReq e st h)

end SeqInvariant

/-- C2 (confirmed).  The counter starts at 0; over any event run from the
initial state, the outbound messages carry strictly increasing sequence
numbers in write order (so no two share one), all bounded by the current
counter; and every consumed client-frame header bumps the same counter by
exactly one (headerReady), producing gaps but never a decrease. -/
theorem c2_seq_strictly_increasing {J : Type} (parse : Chars → Option J)
    (parseReq : Chars → Request) (es : List Ev) :
    (initState J).sequenceNumber = 0 ∧
      List.Pairwise (· < ·)
        ((run parse parseReq es (initState J)).clientWrites.map ClientMsg.seqOf) ∧
      List.Pairwise (· ≠ ·)
        ((run parse parseReq es (initState J)).clientWrites.map ClientMsg.seqOf) ∧
      (∀ w ∈ (run parse parseReq es (initState J)).clientWrites,
        ClientMsg.seqOf w ≤ (run parse parseReq es (initState J)).sequenceNumber) ∧
      (∀ st : BridgeState J, (readContentHeader st).sequenceNumber
        = st.sequenceNumber + (if headerReady st then 1 else 0)) := by
  have hrun := seqOK_run parse parseReq es (initState J) ⟨by simp [initState], by simp [initState]⟩
  refine ⟨rfl, hrun.1, hrun.1.imp Nat.ne_of_lt, hrun.2, ?_⟩
  intro st
  unfold readContentHeader headerReady
  split
  · simp
  · rename_i idx hidx
    by_cases hz : idx = 0
    · subst hz
      simp
    · rw [if_neg hz]
      split
      · rename_i hm
        simp [hz, hm]
      · rename_i ds hm
        simp [hz, hm]

/-- Evaluation of c2_seq_strictly_increasing on a short concrete run. -/
theorem c2_seq_strictly_increasing_witness :
    List.Pairwise (· ≠ ·)
      ((run parse42 demoReq [Ev.targetData ['4', '2', Char.ofNat 0]]
        (initState Nat)).clientWrites.map ClientMsg.seqOf) :=
  (c2_seq_strictly_increasing parse42 demoReq
    [Ev.targetData ['4', '2', Char.ofNat 0]]).2.2.1

/-! ## C7: chunk-boundary independence of the client channel

The processClientMessage loop is characterised by a canonical state function
over the stream of frames: after any prefix of the framed byte stream has
arrived (in however many chunks), the machine is in the canonical state for
that prefix, up to the residual input buffer once a dispatch has killed the
process (a dead process receives no further readiness events, so bytes sent
after death never reach its buffer). -/

section ChunkInvariance

variable {J : Type} (parse : Chars → Option J) (parseReq : Chars → Request)

/-- The byte length of a frame header for payload p, separator included. -/
def headerLen (p : Chars) : Nat :=
  (clHead ++ natDigits p.length).length + TWO_CRLF.length

lemma headerLen_eq (p : Chars) :
    (clHead ++ natDigits p.length ++ TWO_CRLF).length = headerLen p := by
  simp [headerLen, List.length_append]
  omega

lemma headerLen_pos (p : Chars) : 0 < headerLen p := by
  unfold headerLen
  have h4 : TWO_CRLF.length = 4 := by decide
  omega

lemma mkFrame_decomp (p : Chars) :
    mkFrame p = (clHead ++ natDigits p.length ++ TWO_CRLF) ++ p := by
  simp [mkFrame, List.append_assoc]

lemma mkFrame_length (p : Chars) : (mkFrame p).length = headerLen p + p.length := by
  rw [mkFrame_decomp, List.length_append, headerLen_eq]

lemma mkFrame_ne_nil (p : Chars) : mkFrame p ≠ [] := by
  intro h
  have := congrArg List.length h
  rw [mkFrame_length] at this
  simp only [List.length_nil] at this
  have := headerLen_pos p
  omega

lemma prefix_shorten {x a b : Chars} (h : x <+: a ++ b) (hl : x.length ≤ a.length) :
    x <+: a := by
  rw [List.prefix_iff_eq_take] at h ⊢
  rw [List.take_append_of_le_length hl] at h
  exact h

lemma prefix_take_eq {x y : Chars} (h : x <+: y) {n : Nat} (hn : n ≤ x.length) :
    x.take n = y.take n := by
  obtain ⟨t, rfl⟩ := h
  rw [List.take_append_of_le_length hn]

/-- readContentHeader on a buffer that starts with a well-formed header:
the expected length is recorded, header and separator are chopped, and the
counter is bumped, whatever bytes follow the separator. -/
lemma readContentHeader_shape (st : BridgeState J) (n : Nat) (rest : Chars)
    (hbuf : st.currentInputData = (clHead ++ natDigits n) ++ (TWO_CRLF ++ rest)) :
    readContentHeader st =
      { st with
        currentContentLength := n
        currentInputData := rest
        sequenceNumber := st.sequenceNumber + 1 } := by
  have hmatch := matchCL_self (natDigits n) (natDigits_all_digits _) (natDigits_ne_nil _)
  have hlen0 : (clHead ++ natDigits n).length ≠ 0 := by
    simp [clHead]
  have hdrop : ((clHead ++ natDigits n) ++ (TWO_CRLF ++ rest)).drop
      ((clHead ++ natDigits n).length + TWO_CRLF.length) = rest := by
    rw [List.drop_append, List.drop_left]
  unfold readContentHeader
  rw [hbuf, findSubstr_crlf _ _ (cr_not_mem_header n)]
  simp only [if_neg hlen0, List.take_left, hmatch, hdrop, digitsVal_natDigits]

/-- The state in which the drain loop parks when the buffer x holds only a
proper part of the frame for payload p: either the separator has not arrived
yet (the buffer is kept whole), or the header has been consumed and the loop
waits for the rest of the payload. -/
def blockedState (st : BridgeState J) (p x : Chars) : BridgeState J :=
  if x.length < headerLen p then { st with currentInputData := x }
  else
    { st with
      sequenceNumber := st.sequenceNumber + 1
      currentContentLength := p.length
      currentInputData := x.drop (headerLen p) }

/-- The canonical machine state after a clean bridge state st has received
exactly the bytes x (a prefix of the byte stream of frames ps) on the client
channel. -/
def canonState (st : BridgeState J) : List Chars → Chars → BridgeState J
  | [], x => { st with currentInputData := x }
  | p :: ps, x =>
    if (mkFrame p).isPrefixOf x then
      if (afterDispatch parseReq st p (x.drop (mkFrame p).length)).status = .running then
        canonState
          { afterDispatch parseReq st p (x.drop (mkFrame p).length) with
            currentContentLength := 0
            currentInputData := [] }
          ps (x.drop (mkFrame p).length)
      else afterDispatch parseReq st p (x.drop (mkFrame p).length)
    else blockedState st p x

/-- handleWrapperRequest neither reads nor writes the inbound buffer. -/
lemma handleWrapperRequest_inbuf_swap (r : Request) (st : BridgeState J) (y : Chars) :
    handleWrapperRequest r { st with currentInputData := y }
      = ((handleWrapperRequest r st).1,
        { (handleWrapperRequest r st).2 with currentInputData := y }) := by
  simp only [handleWrapperRequest, writeResponseMessage, launchTarget,
    attachTargetSync, connectCore, forwardBufferedMessages]
  repeat' split
  all_goals simp_all

/-- dispatchRequest neither reads nor writes the inbound buffer: the buffer
contents can be swapped across a dispatch. -/
lemma dispatchRequest_inbuf_swap (r : Request) (st : BridgeState J) (y : Chars) :
    dispatchRequest r { st with currentInputData := y }
      = { dispatchRequest r st with currentInputData := y } := by
  have h := handleWrapperRequest_inbuf_swap r
    { st with dispatched := st.dispatched ++ [r] } y
  rcases hw : handleWrapperRequest r { st with dispatched := st.dispatched ++ [r] }
    with ⟨b, st1⟩
  rw [hw] at h
  have h2 : handleWrapperRequest r
      { st with currentInputData := y, dispatched := st.dispatched ++ [r] }
      = (b, { st1 with currentInputData := y }) := h
  simp only [dispatchRequest]
  rw [h2, hw]
  cases b
  · show (if st1.callbackSet then
        ({ st1 with
            currentInputData := y
            targetWrites := st1.targetWrites ++ [translateNuclideRequest r] } : BridgeState J)
      else { st1 with currentInputData := y })
      = { (if st1.callbackSet then
            ({ st1 with
                targetWrites := st1.targetWrites ++ [translateNuclideRequest r] } : BridgeState J)
          else st1) with currentInputData := y }
    cases hcb : st1.callbackSet
    · rw [if_neg (by simp [hcb]), if_neg (by simp [hcb])]
      simp [hcb]
    · rw [if_pos (by simp [hcb]), if_pos (by simp [hcb])]
  · rfl

/-- The dispatch state for payload p does not depend on the bytes queued
behind the frame: a longer tail only means a longer residual buffer. -/
lemma afterDispatch_tail_ext (st : BridgeState J) (p tail c : Chars) :
    afterDispatch parseReq st p (tail ++ c)
      = { afterDispatch parseReq st p tail with
          currentInputData := (p ++ tail) ++ c } := by
  unfold afterDispatch
  rw [show p ++ (tail ++ c) = (p ++ tail) ++ c from (List.append_assoc p tail c).symm]
  exact dispatchRequest_inbuf_swap (parseReq p)
    { st with
      currentContentLength := p.length
      currentInputData := p ++ tail
      sequenceNumber := st.sequenceNumber + 1 } ((p ++ tail) ++ c)

/-- Feeding a proper prefix of a single frame into the drain loop parks it
in the corresponding blocked state without dispatching anything. -/
lemma drainClient_blocked_frame (st : BridgeState J) (p x : Chars)
    (hrun : st.status = .running) (hcl : st.currentContentLength = 0)
    (hbuf : st.currentInputData = x)
    (hx : x <+: mkFrame p) (hne : x ≠ mkFrame p) (hp : p ≠ []) :
    drainClient parseReq st = blockedState st p x := by
  have hxlt : x.length < (mkFrame p).length := by
    rcases Nat.lt_or_ge x.length (mkFrame p).length with h | h
    · exact h
    · exact absurd (hx.eq_of_length (Nat.le_antisymm hx.length_le h)) hne
  by_cases hshort : x.length < headerLen p
  · rw [blockedState, if_pos hshort]
    have hfind : findSubstr TWO_CRLF st.currentInputData = none := by
      rw [hbuf]
      apply findSubstr_none_of_partial_header (cr_not_mem_header p.length)
      · apply prefix_shorten (b := p)
        · rw [← mkFrame_decomp]
          exact hx
        · rw [List.length_append]
          unfold headerLen at hshort
          omega
      · unfold headerLen at hshort
        exact hshort
    rw [drainClient_blocked_pre parseReq st hrun hcl (Or.inl hfind)]
    rw [← hbuf]
  · have hlen : headerLen p ≤ x.length := Nat.le_of_not_lt hshort
    have hA : (mkFrame p).take (headerLen p)
        = clHead ++ natDigits p.length ++ TWO_CRLF := by
      rw [mkFrame_decomp, ← headerLen_eq, List.take_left]
    have hxdec : x = (clHead ++ natDigits p.length ++ TWO_CRLF)
        ++ x.drop (headerLen p) := by
      conv_lhs => rw [← List.take_append_drop (headerLen p) x]
      rw [prefix_take_eq hx hlen, hA]
    have hqlen : (x.drop (headerLen p)).length < p.length := by
      rw [List.length_drop]
      rw [mkFrame_length] at hxlt
      omega
    have hshape : st.currentInputData = (clHead ++ natDigits p.length)
        ++ (TWO_CRLF ++ x.drop (headerLen p)) := by
      rw [hbuf]
      conv_lhs => rw [hxdec]
      simp only [List.append_assoc]
    have hiter : clientIter parseReq st = (false, blockedState st p x) := by
      unfold clientIter
      rw [if_neg (by simp [hrun]), if_pos hcl,
        readContentHeader_shape st p.length (x.drop (headerLen p)) hshape]
      unfold clientIterCore
      rw [if_neg (by simp [hrun])]
      rw [if_pos (Or.inr (by simpa using hqlen))]
      rw [blockedState, if_neg hshort]
    exact drainClient_iter_false parseReq st _ hiter

/-- Resuming the loop from a parked header (expected length recorded,
payload now complete): the payload is dispatched and, if the wrapper
survived, consumed. -/
lemma drainClient_resume (st : BridgeState J) (p q : Chars)
    (hrun : st.status = .running) (hp : p ≠ [])
    (hq : p.length ≤ q.length) (htake : q.take p.length = p) :
    drainClient parseReq
      { st with
        sequenceNumber := st.sequenceNumber + 1
        currentContentLength := p.length
        currentInputData := q }
      = if (afterDispatch parseReq st p (q.drop p.length)).status ≠ .running then
          afterDispatch parseReq st p (q.drop p.length)
        else
          drainClient parseReq
            { afterDispatch parseReq st p (q.drop p.length) with
              currentContentLength := 0
              currentInputData := q.drop p.length } := by
  have hplen : p.length ≠ 0 := fun h => hp (List.length_eq_zero.mp h)
  have hqdec : q = p ++ q.drop p.length := by
    conv_lhs => rw [← List.take_append_drop p.length q]
    rw [htake]
  have hstq : ({ st with
        sequenceNumber := st.sequenceNumber + 1
        currentContentLength := p.length
        currentInputData := q } : BridgeState J)
      = { st with
          currentContentLength := p.length
          currentInputData := p ++ q.drop p.length
          sequenceNumber := st.sequenceNumber + 1 } := by
    rw [← hqdec]
  have hiter : clientIter parseReq
      { st with
        sequenceNumber := st.sequenceNumber + 1
        currentContentLength := p.length
        currentInputData := q }
      = if (afterDispatch parseReq st p (q.drop p.length)).status ≠ .running then
          (false, afterDispatch parseReq st p (q.drop p.length))
        else
          (true, { afterDispatch parseReq st p (q.drop p.length) with
            currentContentLength := 0
            currentInputData := q.drop p.length }) := by
    unfold clientIter
    rw [if_neg (by simp [hrun]), if_neg (by simpa using hplen)]
    unfold clientIterCore
    rw [if_neg (by simp [hrun])]
    rw [if_neg (by
      simp only [not_or]
      constructor
      · simpa using hplen
      · simpa using Nat.not_lt.mpr hq)]
    simp only [htake]
    rw [hstq]
    have hADbuf := (afterDispatch_input parseReq st p (q.drop p.length)).1
    by_cases h2 : (afterDispatch parseReq st p (q.drop p.length)).status = .running
    · rw [if_neg (by simpa using h2), if_neg (by simpa using h2)]
      show (true, { afterDispatch parseReq st p (q.drop p.length) with
          currentContentLength := 0
          currentInputData :=
            (afterDispatch parseReq st p (q.drop p.length)).currentInputData.drop p.length })
        = _
      rw [hADbuf, List.drop_left]
    · rw [if_pos (by simpa using h2), if_pos (by simpa using h2)]
      rfl
  by_cases h2 : (afterDispatch parseReq st p (q.drop p.length)).status = .running
  · rw [if_neg (by simpa using h2)] at hiter
    rw [if_neg (by simpa using h2)]
    exact drainClient_iter_true parseReq _ _ hiter
  · rw [if_pos (by simpa using h2)] at hiter
    rw [if_pos (by simpa using h2)]
    exact drainClient_iter_false parseReq _ _ hiter

lemma isPrefixOf_nil_frame (p : Chars) :
    (mkFrame p).isPrefixOf ([] : Chars) = false := by
  cases hm : mkFrame p with
  | nil => exact absurd hm (mkFrame_ne_nil p)
  | cons a l => simp [List.isPrefixOf]

lemma canonState_nil_buffer (st : BridgeState J) (ps : List Chars) :
    canonState parseReq st ps [] = { st with currentInputData := [] } := by
  cases ps with
  | nil => simp only [canonState]
  | cons p ps =>
    simp only [canonState]
    rw [if_neg (by simp [isPrefixOf_nil_frame])]
    rw [blockedState, if_pos (by simpa using headerLen_pos p)]

/-- Delivering any prefix x of the byte stream of the frames ps to a clean
drain loop in one read parks the machine in the canonical state for x. -/
lemma drainClient_canon (ps : List Chars) :
    ∀ (x : Chars) (st : BridgeState J), (∀ p ∈ ps, p ≠ []) →
      st.status = .running → st.currentContentLength = 0 →
      x <+: (ps.map mkFrame).flatten →
      drainClient parseReq { st with currentInputData := x }
        = canonState parseReq st ps x := by
  induction ps with
  | nil =>
    intro x st hps hrun hcl hx
    have hxnil : x = [] := List.prefix_nil.mp (by simpa using hx)
    subst hxnil
    simp only [canonState]
    exact drainClient_nil_input parseReq _ hcl rfl
  | cons p ps ih =>
    intro x st hps hrun hcl hx
    have hp : p ≠ [] := hps p (List.mem_cons_self p ps)
    have hps' : ∀ q ∈ ps, q ≠ [] := fun q hq => hps q (List.mem_cons_of_mem p hq)
    have hxF : x <+: mkFrame p ++ (ps.map mkFrame).flatten := by
      simpa using hx
    by_cases hpre : (mkFrame p).isPrefixOf x = true
    · have hpre' : mkFrame p <+: x := isPrefixOf_sound hpre
      have htk : x.take (mkFrame p).length = mkFrame p := by
        rw [← prefix_take_eq hpre' (le_refl _), List.take_length]
      have hxdec : x = mkFrame p ++ x.drop (mkFrame p).length := by
        conv_lhs => rw [← List.take_append_drop (mkFrame p).length x, htk]
      have htail : x.drop (mkFrame p).length <+: (ps.map mkFrame).flatten := by
        have h2 := hxF
        rw [hxdec] at h2
        exact (List.prefix_append_right_inj (mkFrame p)).mp h2
      have hfr := drainClient_frame parseReq { st with currentInputData := x } p
        (x.drop (mkFrame p).length) hrun hcl hxdec hp
      have hADeq : afterDispatch parseReq { st with currentInputData := x } p
          (x.drop (mkFrame p).length)
          = afterDispatch parseReq st p (x.drop (mkFrame p).length) := rfl
      rw [hADeq] at hfr
      simp only [canonState]
      rw [if_pos hpre]
      by_cases hst : (afterDispatch parseReq st p
          (x.drop (mkFrame p).length)).status = .running
      · rw [if_neg (by simpa using hst)] at hfr
        rw [hfr, if_pos hst]
        exact ih (x.drop (mkFrame p).length)
          { afterDispatch parseReq st p (x.drop (mkFrame p).length) with
            currentContentLength := 0
            currentInputData := [] } hps' hst rfl htail
      · rw [if_pos (by simpa using hst)] at hfr
        rw [hfr, if_neg hst]
    · have hx' : x <+: mkFrame p := by
        rcases List.prefix_or_prefix_of_prefix hxF
          (List.prefix_append (mkFrame p) ((ps.map mkFrame).flatten)) with h | h
        · exact h
        · exact absurd (List.isPrefixOf_iff_prefix.mpr h) hpre
      have hne : x ≠ mkFrame p := fun he =>
        hpre (List.isPrefixOf_iff_prefix.mpr (he ▸ List.prefix_refl x))
      have hbl := drainClient_blocked_frame parseReq { st with currentInputData := x }
        p x hrun hcl rfl hx' hne hp
      simp only [canonState]
      rw [if_neg hpre]
      exact hbl

/-- A chunk arriving on stdin is appended to the input buffer (the first half
of processClientMessage). -/
def addInput (c : Chars) (st : BridgeState J) : BridgeState J :=
  { st with currentInputData := st.currentInputData ++ c }

/-- A loop parked mid-frame (header consumed, payload still incomplete)
stays parked. -/
lemma drainClient_waiting (st : BridgeState J) (p q : Chars)
    (hrun : st.status = .running) (hp : p ≠ [])
    (hq : q.length < p.length) :
    drainClient parseReq
      { st with
        sequenceNumber := st.sequenceNumber + 1
        currentContentLength := p.length
        currentInputData := q }
      = { st with
          sequenceNumber := st.sequenceNumber + 1
          currentContentLength := p.length
          currentInputData := q } := by
  have hplen : p.length ≠ 0 := fun h => hp (List.length_eq_zero.mp h)
  apply drainClient_iter_false
  unfold clientIter
  rw [if_neg (by simp [hrun]), if_neg (by simpa using hplen)]
  unfold clientIterCore
  rw [if_neg (by simp [hrun]), if_pos (Or.inr (by simpa using hq))]

/-- One more chunk c arriving in the canonical state for x drains to the
canonical state for x ++ c. -/
lemma drainClient_canon_append (ps : List Chars) :
    ∀ (x c : Chars) (st : BridgeState J), (∀ p ∈ ps, p ≠ []) →
      st.status = .running → st.currentContentLength = 0 →
      (x ++ c) <+: (ps.map mkFrame).flatten →
      drainClient parseReq (addInput c (canonState parseReq st ps x))
        = canonState parseReq st ps (x ++ c) := by
  induction ps with
  | nil =>
    intro x c st hps hrun hcl hx
    have hnil : x ++ c = [] := List.prefix_nil.mp (by simpa using hx)
    rcases List.append_eq_nil.mp hnil with ⟨hxe, hce⟩
    subst hxe
    subst hce
    simp only [canonState, addInput]
    exact drainClient_nil_input parseReq _ hcl rfl
  | cons p ps ih =>
    intro x c st hps hrun hcl hx
    have hp : p ≠ [] := hps p (List.mem_cons_self p ps)
    have hps' : ∀ q ∈ ps, q ≠ [] := fun q hq => hps q (List.mem_cons_of_mem p hq)
    have hxcF : x ++ c <+: mkFrame p ++ (ps.map mkFrame).flatten := by
      simpa using hx
    by_cases hpre : (mkFrame p).isPrefixOf x = true
    · -- the whole first frame already arrived within x
      have hpre' : mkFrame p <+: x := isPrefixOf_sound hpre
      have htk : x.take (mkFrame p).length = mkFrame p := by
        rw [← prefix_take_eq hpre' (le_refl _), List.take_length]
      have hxdec : x = mkFrame p ++ x.drop (mkFrame p).length := by
        conv_lhs => rw [← List.take_append_drop (mkFrame p).length x, htk]
      have hdropc : (x ++ c).drop (mkFrame p).length
          = x.drop (mkFrame p).length ++ c :=
        List.drop_append_of_le_length hpre'.length_le
      have hpre2 : (mkFrame p).isPrefixOf (x ++ c) = true :=
        List.isPrefixOf_iff_prefix.mpr (hpre'.trans (List.prefix_append x c))
      have heq2 : x ++ c = mkFrame p ++ (x.drop (mkFrame p).length ++ c) := by
        conv_lhs => rw [hxdec]
        rw [List.append_assoc]
      have htailc : x.drop (mkFrame p).length ++ c <+: (ps.map mkFrame).flatten := by
        have h2 := hxcF
        rw [heq2] at h2
        exact (List.prefix_append_right_inj (mkFrame p)).mp h2
      have hcanonx : canonState parseReq st (p :: ps) x
          = if (afterDispatch parseReq st p (x.drop (mkFrame p).length)).status
              = .running then
              canonState parseReq
                { afterDispatch parseReq st p (x.drop (mkFrame p).length) with
                  currentContentLength := 0
                  currentInputData := [] }
                ps (x.drop (mkFrame p).length)
            else afterDispatch parseReq st p (x.drop (mkFrame p).length) := by
        simp only [canonState]
        rw [if_pos hpre]
      by_cases hst : (afterDispatch parseReq st p
          (x.drop (mkFrame p).length)).status = .running
      · have hcx : canonState parseReq st (p :: ps) x
            = canonState parseReq
              { afterDispatch parseReq st p (x.drop (mkFrame p).length) with
                currentContentLength := 0
                currentInputData := [] }
              ps (x.drop (mkFrame p).length) := by
          rw [hcanonx, if_pos hst]
        rw [hcx]
        rw [ih (x.drop (mkFrame p).length) c
          { afterDispatch parseReq st p (x.drop (mkFrame p).length) with
            currentContentLength := 0
            currentInputData := [] } hps' hst rfl htailc]
        have hst2 : (afterDispatch parseReq st p
            (x.drop (mkFrame p).length ++ c)).status = .running := by
          rw [afterDispatch_tail_ext]
          exact hst
        have hstates : ({ afterDispatch parseReq st p (x.drop (mkFrame p).length ++ c) with
            currentContentLength := 0
            currentInputData := [] } : BridgeState J)
            = { afterDispatch parseReq st p (x.drop (mkFrame p).length) with
                currentContentLength := 0
                currentInputData := [] } := by
          rw [afterDispatch_tail_ext]
        simp only [canonState]
        rw [if_pos hpre2, hdropc, if_pos hst2, hstates]
      · have hcx : canonState parseReq st (p :: ps) x
            = afterDispatch parseReq st p (x.drop (mkFrame p).length) := by
          rw [hcanonx, if_neg hst]
        rw [hcx]
        have hst2 : ¬ (afterDispatch parseReq st p
            (x.drop (mkFrame p).length ++ c)).status = .running := by
          rw [afterDispatch_tail_ext]
          exact hst
        have hdead : (addInput c (afterDispatch parseReq st p
            (x.drop (mkFrame p).length))).status ≠ .running := hst
        rw [drainClient_dead parseReq _ hdead]
        simp only [canonState]
        rw [if_pos hpre2, hdropc, if_neg hst2, afterDispatch_tail_ext]
        simp only [addInput]
        rw [(afterDispatch_input parseReq st p (x.drop (mkFrame p).length)).1]
    · -- only part of the first frame arrived within x
      have hxF2 : x <+: mkFrame p ++ (ps.map mkFrame).flatten :=
        (List.prefix_append x c).trans hxcF
      have hx' : x <+: mkFrame p := by
        rcases List.prefix_or_prefix_of_prefix hxF2
          (List.prefix_append (mkFrame p) ((ps.map mkFrame).flatten)) with h | h
        · exact h
        · exact absurd (List.isPrefixOf_iff_prefix.mpr h) hpre
      by_cases hshort : x.length < headerLen p
      · -- the separator had not even arrived: the buffer was untouched
        have hcanonx : canonState parseReq st (p :: ps) x
            = { st with currentInputData := x } := by
          simp only [canonState]
          rw [if_neg hpre, blockedState, if_pos hshort]
        rw [hcanonx]
        exact drainClient_canon parseReq (p :: ps) (x ++ c) st hps hrun hcl hx
      · -- header consumed, loop waiting on the payload
        have hlen : headerLen p ≤ x.length := Nat.le_of_not_lt hshort
        have hA : (mkFrame p).take (headerLen p)
            = clHead ++ natDigits p.length ++ TWO_CRLF := by
          rw [mkFrame_decomp, ← headerLen_eq, List.take_left]
        have hxdec : x = (clHead ++ natDigits p.length ++ TWO_CRLF)
            ++ x.drop (headerLen p) := by
          conv_lhs => rw [← List.take_append_drop (headerLen p) x]
          rw [prefix_take_eq hx' hlen, hA]
        have hxlen : x.length = headerLen p + (x.drop (headerLen p)).length := by
          rw [List.length_drop]
          omega
        have heqxc : x ++ c = (clHead ++ natDigits p.length ++ TWO_CRLF)
            ++ (x.drop (headerLen p) ++ c) := by
          conv_lhs => rw [hxdec]
          rw [List.append_assoc]
        have hMF : mkFrame p ++ (ps.map mkFrame).flatten
            = (clHead ++ natDigits p.length ++ TWO_CRLF)
              ++ (p ++ (ps.map mkFrame).flatten) := by
          rw [mkFrame_decomp, List.append_assoc]
        have hqF : x.drop (headerLen p) ++ c <+: p ++ (ps.map mkFrame).flatten := by
          have h2 := hxcF
          rw [heqxc, hMF] at h2
          exact (List.prefix_append_right_inj _).mp h2
        have hcanonx : canonState parseReq st (p :: ps) x
            = { st with
                sequenceNumber := st.sequenceNumber + 1
                currentContentLength := p.length
                currentInputData := x.drop (headerLen p) } := by
          simp only [canonState]
          rw [if_neg hpre, blockedState, if_neg hshort]
        rw [hcanonx]
        simp only [addInput]
        by_cases hpay : (x.drop (headerLen p) ++ c).length < p.length
        · -- still not enough payload: parked again
          rw [drainClient_waiting parseReq st p (x.drop (headerLen p) ++ c) hrun hp hpay]
          have hxclen : (x ++ c).length < (mkFrame p).length := by
            rw [mkFrame_length]
            rw [List.length_append] at hpay ⊢
            omega
          have hpre2 : ¬ (mkFrame p).isPrefixOf (x ++ c) = true := by
            simp [isPrefixOf_false_of_short hxclen]
          have hshort2 : ¬ (x ++ c).length < headerLen p := by
            rw [List.length_append]
            omega
          have hdrop2 : (x ++ c).drop (headerLen p) = x.drop (headerLen p) ++ c := by
            rw [heqxc, ← headerLen_eq, List.drop_left]
          simp only [canonState]
          rw [if_neg hpre2, blockedState, if_neg hshort2, hdrop2]
        · -- payload now complete: dispatch it and continue
          have hpay' : p.length ≤ (x.drop (headerLen p) ++ c).length :=
            Nat.le_of_not_lt hpay
          have htake : (x.drop (headerLen p) ++ c).take p.length = p := by
            rw [prefix_take_eq hqF hpay', List.take_left]
          have hqcdec : x.drop (headerLen p) ++ c
              = p ++ (x.drop (headerLen p) ++ c).drop p.length := by
            conv_lhs =>
              rw [← List.take_append_drop p.length (x.drop (headerLen p) ++ c), htake]
          have heq3 : x ++ c
              = mkFrame p ++ (x.drop (headerLen p) ++ c).drop p.length := by
            rw [heqxc, mkFrame_decomp]
            conv_lhs => rw [hqcdec]
            simp only [List.append_assoc]
          have hpre2 : (mkFrame p).isPrefixOf (x ++ c) = true :=
            List.isPrefixOf_iff_prefix.mpr ⟨_, heq3.symm⟩
          have hdroptail : (x ++ c).drop (mkFrame p).length
              = (x.drop (headerLen p) ++ c).drop p.length := by
            rw [heq3, List.drop_left]
          have htail2 : (x.drop (headerLen p) ++ c).drop p.length
              <+: (ps.map mkFrame).flatten := by
            simpa [List.drop_left] using hqF.drop p.length
          rw [drainClient_resume parseReq st p (x.drop (headerLen p) ++ c)
            hrun hp hpay' htake]
          by_cases h2 : (afterDispatch parseReq st p
              ((x.drop (headerLen p) ++ c).drop p.length)).status = .running
          · rw [if_neg (by simpa using h2)]
            have hdl2 := drainClient_canon parseReq ps
              ((x.drop (headerLen p) ++ c).drop p.length)
              { afterDispatch parseReq st p
                  ((x.drop (headerLen p) ++ c).drop p.length) with
                currentContentLength := 0
                currentInputData := [] } hps' h2 rfl htail2
            simp only [canonState]
            rw [if_pos hpre2, hdroptail, if_pos h2]
            exact hdl2
          · rw [if_pos (by simpa using h2)]
            simp only [canonState]
            rw [if_pos hpre2, hdroptail, if_neg h2]

/-- Forget the residual input buffer: all the other observables of the
bridge (writes, counter, status, dispatch record, ...). -/
def stripBuf (st : BridgeState J) : BridgeState J :=
  { st with currentInputData := [] }

lemma step_clientData (st : BridgeState J) (c : Chars) (hrun : st.status = .running) :
    step parse parseReq (Ev.clientData c) st = drainClient parseReq (addInput c st) := by
  unfold step
  rw [if_neg (by simp [hrun])]
  rfl

lemma step_dead (e : Ev) (st : BridgeState J) (h : st.status ≠ .running) :
    step parse parseReq e st = st := by
  unfold step
  rw [if_pos h]

lemma run_dead (es : List Ev) (st : BridgeState J) (h : st.status ≠ .running) :
    run parse parseReq es st = st := by
  induction es with
  | nil => rfl
  | cons e es ih =>
    rw [run_cons, step_dead parse parseReq e st h]
    exact ih

/-- The chunked run against the canonical state: the machine either tracks
the canonical state exactly (while the process lives) or froze at the kill
point, where it agrees with the canonical state on everything except the
bytes that were never delivered to it. -/
lemma run_chunks_canon (ps : List Chars) (hps : ∀ p ∈ ps, p ≠ []) :
    ∀ (cs : List Chars) (x : Chars) (st : BridgeState J),
      st.status = .running → st.currentContentLength = 0 →
      (x ++ cs.flatten) <+: (ps.map mkFrame).flatten →
      run parse parseReq (cs.map Ev.clientData) (canonState parseReq st ps x)
          = canonState parseReq st ps (x ++ cs.flatten)
        ∨ (stripBuf (run parse parseReq (cs.map Ev.clientData)
              (canonState parseReq st ps x))
            = stripBuf (canonState parseReq st ps (x ++ cs.flatten))
          ∧ (canonState parseReq st ps (x ++ cs.flatten)).status ≠ .running) := by
  intro cs
  induction cs with
  | nil =>
    intro x st hrun hcl hx
    left
    simp only [List.map_nil, List.flatten_nil, List.append_nil]
    rfl
  | cons c cs ih =>
    intro x st hrun hcl hx
    have hxc : x ++ c <+: (ps.map mkFrame).flatten := by
      refine List.IsPrefix.trans ?_ hx
      refine ⟨cs.flatten, ?_⟩
      simp [List.append_assoc]
    by_cases hst : (canonState parseReq st ps x).status = .running
    · have hstep : step parse parseReq (Ev.clientData c) (canonState parseReq st ps x)
          = canonState parseReq st ps (x ++ c) := by
        rw [step_clientData parse parseReq _ c hst]
        exact drainClient_canon_append parseReq ps x c st hps hrun hcl hxc
      rw [List.map_cons, run_cons, hstep]
      rw [show x ++ (c :: cs).flatten = (x ++ c) ++ cs.flatten from by
        simp [List.append_assoc]]
      exact ih (x ++ c) st hrun hcl (by simpa [List.append_assoc] using hx)
    · right
      rw [run_dead parse parseReq _ _ hst]
      have hAL := drainClient_canon_append parseReq ps x ((c :: cs).flatten) st
        hps hrun hcl (by simpa using hx)
      rw [drainClient_dead parseReq _ (show (addInput ((c :: cs).flatten)
          (canonState parseReq st ps x)).status ≠ .running from hst)] at hAL
      constructor
      · rw [← hAL]
        rfl
      · rw [← hAL]
        exact hst

/-- A request whose dispatch leaves the wrapper alive: not a disconnect,
not a noDebug launch, and any attach port string it carries parses. -/
def keepsAlive (r : Request) : Prop :=
  r.command ≠ cmdDisconnect ∧
    (r.command = cmdLaunch → r.noDebug = false) ∧
    (r.command = cmdAttach → ∀ s, r.portArg = some s → (parsePort s).isSome = true)

lemma dispatchRequest_attach_port (r : Request) (st : BridgeState J)
    (hcmd : r.command = cmdAttach) (s : Chars) (hport : r.portArg = some s)
    (hs : (parsePort s).isSome = true) :
    dispatchRequest r st =
      { st with
        dispatched := st.dispatched ++ [r]
        pendingAttach := some r } := by
  obtain ⟨n, hn⟩ := Option.isSome_iff_exists.mp hs
  simp [dispatchRequest, handleWrapperRequest, hcmd, cmd_attach_ne_disconnect,
    cmd_attach_ne_launch, attachTargetSync, hport, hn]

/-- Dispatching a keepsAlive request from a live wrapper leaves it live and
appends exactly that request to the dispatch record. -/
lemma dispatchRequest_keeps (r : Request) (st : BridgeState J)
    (hr : keepsAlive r) (hrun : st.status = .running) :
    (dispatchRequest r st).status = .running ∧
      (dispatchRequest r st).dispatched = st.dispatched ++ [r] := by
  obtain ⟨h1, h2, h3⟩ := hr
  by_cases hl : r.command = cmdLaunch
  · rw [dispatchRequest_launch r st hl (h2 hl)]
    exact ⟨hrun, rfl⟩
  by_cases ha : r.command = cmdAttach
  · cases hport : r.portArg with
    | none =>
      rw [dispatchRequest_attach r st ha hport]
      exact ⟨hrun, rfl⟩
    | some s =>
      rw [dispatchRequest_attach_port r st ha s hport (h3 ha s hport)]
      exact ⟨hrun, rfl⟩
  by_cases hdbg : st.debugging
  · by_cases hcb : st.callbackSet
    · rw [dispatchRequest_forward r st ⟨h1, hl, ha⟩ hdbg hcb]
      exact ⟨hrun, rfl⟩
    · rw [dispatchRequest_unforwarded r st ⟨h1, hl, ha⟩ hdbg (by simpa using hcb)]
      exact ⟨hrun, rfl⟩
  · rw [dispatchRequest_buffered r st ⟨h1, hl, ha⟩ (by simpa using hdbg)]
    exact ⟨hrun, rfl⟩

/-- Over a whole well-formed frame stream whose requests all keep the
wrapper alive, the canonical state has consumed every byte and dispatched
every frame's request, in stream order. -/
lemma canonState_complete (ps : List Chars) :
    ∀ st : BridgeState J, (∀ p ∈ ps, p ≠ []) → st.status = .running →
      (∀ p ∈ ps, keepsAlive (parseReq p)) →
      (canonState parseReq st ps ((ps.map mkFrame).flatten)).status = .running ∧
      (canonState parseReq st ps ((ps.map mkFrame).flatten)).dispatched
        = st.dispatched ++ ps.map parseReq ∧
      (canonState parseReq st ps ((ps.map mkFrame).flatten)).currentInputData = [] := by
  induction ps with
  | nil =>
    intro st hps hrun hk
    simp only [List.map_nil, List.flatten_nil, canonState]
    exact ⟨hrun, by simp, by simp⟩
  | cons p ps ih =>
    intro st hps hrun hk
    have hkp : keepsAlive (parseReq p) := hk p (List.mem_cons_self p ps)
    have hflat : ((p :: ps).map mkFrame).flatten
        = mkFrame p ++ (ps.map mkFrame).flatten := by simp
    have hdrop : (mkFrame p ++ (ps.map mkFrame).flatten).drop (mkFrame p).length
        = (ps.map mkFrame).flatten := List.drop_left _ _
    have hAD : (afterDispatch parseReq st p ((ps.map mkFrame).flatten)).status
          = .running
        ∧ (afterDispatch parseReq st p ((ps.map mkFrame).flatten)).dispatched
          = st.dispatched ++ [parseReq p] :=
      dispatchRequest_keeps (parseReq p)
        { st with
          currentContentLength := p.length
          currentInputData := p ++ (ps.map mkFrame).flatten
          sequenceNumber := st.sequenceNumber + 1 } hkp hrun
    rw [hflat]
    simp only [canonState]
    rw [if_pos (isPrefixOf_append_self (mkFrame p) ((ps.map mkFrame).flatten)), hdrop]
    rw [if_pos hAD.1]
    have hih := ih { afterDispatch parseReq st p ((ps.map mkFrame).flatten) with
        currentContentLength := 0
        currentInputData := [] } (fun q hq => hps q (List.mem_cons_of_mem p hq))
      hAD.1 (fun q hq => hk q (List.mem_cons_of_mem p hq))
    refine ⟨hih.1, ?_, hih.2.2⟩
    rw [hih.2.1]
    show (afterDispatch parseReq st p ((ps.map mkFrame).flatten)).dispatched
        ++ ps.map parseReq = st.dispatched ++ (p :: ps).map parseReq
    rw [hAD.2, List.map_cons, List.append_assoc]
    rfl

end ChunkInvariance

section ZeroHeader

variable {J : Type} (parseReq : Chars → Request)

/-- Consuming a zero-length frame header: the loop breaks immediately after
chopping the header (contentLength stays 0), leaving every byte behind the
separator — complete frames included — undispatched in the buffer. -/
lemma drainClient_zero_header (st : BridgeState J) (rest : Chars)
    (hrun : st.status = .running) (hcl : st.currentContentLength = 0)
    (hbuf : st.currentInputData = mkFrame [] ++ rest) :
    drainClient parseReq st
      = { st with
          currentContentLength := 0
          currentInputData := rest
          sequenceNumber := st.sequenceNumber + 1 } := by
  have hshape : st.currentInputData
      = (clHead ++ natDigits (List.length ([] : Chars))) ++ (TWO_CRLF ++ rest) := by
    rw [hbuf, mkFrame_shape, List.nil_append]
  apply drainClient_iter_false
  unfold clientIter
  rw [if_neg (by simp [hrun]), if_pos hcl, readContentHeader_shape st 0 rest hshape]
  unfold clientIterCore
  rw [if_neg (by simp [hrun]), if_pos (Or.inl rfl)]

end ZeroHeader

/-- C7 counterexample: a syntactically well-formed zero-length frame
followed by a complete ordinary frame.  Delivered in one read, the loop
breaks at the zero header with the complete 'q'-frame still undispatched in
the buffer; delivered as two chunks (one frame each), the second arrival
re-enters the loop and the 'q' request is dispatched.  The two chunkings
therefore produce different dispatched-request sequences, and a complete
frame available in one read is not dispatched before the loop returns. -/
theorem c7_counterexample :
    (step parse42 demoReq (Ev.clientData (mkFrame [] ++ mkFrame ['q']))
        (initState Nat)).dispatched = []
    ∧ (step parse42 demoReq (Ev.clientData (mkFrame [] ++ mkFrame ['q']))
        (initState Nat)).currentInputData = mkFrame ['q']
    ∧ (run parse42 demoReq ([mkFrame [], mkFrame ['q']].map Ev.clientData)
        (initState Nat)).dispatched = [demoReq ['q']] := by
  have hone : step parse42 demoReq (Ev.clientData (mkFrame [] ++ mkFrame ['q']))
      (initState Nat)
      = { initState Nat with
          currentContentLength := 0
          currentInputData := mkFrame ['q']
          sequenceNumber := 1 } := by
    rw [step_clientData parse42 demoReq _ _ rfl]
    exact drainClient_zero_header demoReq
      (addInput (mkFrame [] ++ mkFrame ['q']) (initState Nat)) (mkFrame ['q'])
      rfl rfl rfl
  have hc1 : step parse42 demoReq (Ev.clientData (mkFrame [])) (initState Nat)
      = { initState Nat with
          currentContentLength := 0
          currentInputData := []
          sequenceNumber := 1 } := by
    rw [step_clientData parse42 demoReq _ _ rfl]
    exact drainClient_zero_header demoReq
      (addInput (mkFrame []) (initState Nat)) [] rfl rfl (by simp [addInput, initState])
  have hAD : afterDispatch demoReq
      ({ initState Nat with
          currentContentLength := 0
          currentInputData := []
          sequenceNumber := 1 }) ['q'] []
      = { initState Nat with
          sequenceNumber := 2
          currentContentLength := 1
          currentInputData := ['q']
          bufferedRequests := [demoReq ['q']]
          dispatched := [demoReq ['q']] } := by
    unfold afterDispatch
    rw [dispatchRequest_buffered _ _ (by decide) rfl]
    rfl
  have hc2 : step parse42 demoReq (Ev.clientData (mkFrame ['q']))
      { initState Nat with
        currentContentLength := 0
        currentInputData := []
        sequenceNumber := 1 }
      = { initState Nat with
          sequenceNumber := 2
          currentContentLength := 0
          currentInputData := []
          bufferedRequests := [demoReq ['q']]
          dispatched := [demoReq ['q']] } := by
    rw [step_clientData parse42 demoReq _ _ rfl]
    have hfr := drainClient_frame demoReq
      (addInput (mkFrame ['q'])
        { initState Nat with
          currentContentLength := 0
          currentInputData := []
          sequenceNumber := 1 }) ['q'] [] rfl rfl (by simp [addInput]) (by decide)
    rw [show afterDispatch demoReq
        (addInput (mkFrame ['q'])
          { initState Nat with
            currentContentLength := 0
            currentInputData := []
            sequenceNumber := 1 }) ['q'] []
        = afterDispatch demoReq
          ({ initState Nat with
            currentContentLength := 0
            currentInputData := []
            sequenceNumber := 1 }) ['q'] [] from rfl, hAD] at hfr
    rw [hfr, if_neg (by simp [initState])]
    exact drainClient_nil_input demoReq _ rfl rfl
  refine ⟨by rw [hone]; rfl, by rw [hone], ?_⟩
  show (step parse42 demoReq (Ev.clientData (mkFrame ['q']))
      (step parse42 demoReq (Ev.clientData (mkFrame [])) (initState Nat))).dispatched
    = [demoReq ['q']]
  rw [hc1, hc2]

/-- C7 (confirmed for well-formed frames, i.e. frames with nonempty
payloads — an empty payload cannot be a JSON-encoded request).  For every
frame stream and every way of splitting its bytes into chunks, handling the
chunks one by one produces the same bridge state as a single-burst read on
every observable except the residual input buffer (bytes a dead process was
never handed), and in particular the same ordered dispatch record; and the
single read dispatches all complete frames before processClientMessage
returns: when every framed request keeps the wrapper alive, after the one
clientData event every payload has been dispatched in stream order and the
whole buffer has been consumed. -/
theorem c7_chunk_invariance {J : Type} (parse : Chars → Option J)
    (parseReq : Chars → Request) (ps chunks : List Chars)
    (hps : ∀ p ∈ ps, p ≠ [])
    (hsplit : chunks.flatten = (ps.map mkFrame).flatten) :
    (stripBuf (run parse parseReq (chunks.map Ev.clientData) (initState J))
        = stripBuf (step parse parseReq
            (Ev.clientData ((ps.map mkFrame).flatten)) (initState J))
      ∧ (run parse parseReq (chunks.map Ev.clientData) (initState J)).dispatched
        = (step parse parseReq
            (Ev.clientData ((ps.map mkFrame).flatten)) (initState J)).dispatched)
    ∧ ((∀ p ∈ ps, keepsAlive (parseReq p)) →
        (step parse parseReq
            (Ev.clientData ((ps.map mkFrame).flatten)) (initState J)).dispatched
          = ps.map parseReq
        ∧ (step parse parseReq
            (Ev.clientData ((ps.map mkFrame).flatten)) (initState J)).currentInputData
          = []) := by
  have hinit : canonState parseReq (initState J) ps [] = initState J := by
    rw [canonState_nil_buffer]
    rfl
  have hone : step parse parseReq (Ev.clientData ((ps.map mkFrame).flatten))
      (initState J)
      = canonState parseReq (initState J) ps ((ps.map mkFrame).flatten) := by
    rw [step_clientData parse parseReq _ _ rfl]
    exact drainClient_canon parseReq ps ((ps.map mkFrame).flatten) (initState J)
      hps rfl rfl (List.prefix_refl _)
  have hchunks := run_chunks_canon parse parseReq ps hps chunks [] (initState J)
    rfl rfl (by rw [List.nil_append, hsplit])
  rw [hinit, List.nil_append, hsplit] at hchunks
  have hmain : stripBuf (run parse parseReq (chunks.map Ev.clientData) (initState J))
      = stripBuf (step parse parseReq
          (Ev.clientData ((ps.map mkFrame).flatten)) (initState J)) := by
    rw [hone]
    rcases hchunks with h | h
    · rw [h]
    · exact h.1
  refine ⟨⟨hmain, ?_⟩, ?_⟩
  · have hd := congrArg BridgeState.dispatched hmain
    simpa [stripBuf] using hd
  · intro hk
    rw [hone]
    have hc := canonState_complete parseReq ps (initState J) hps rfl hk
    refine ⟨?_, hc.2.2⟩
    rw [hc.2.1]
    simp [initState]

/-- Evaluation of c7_chunk_invariance on a concrete two-frame stream split
in the middle of the second frame's payload. -/
theorem c7_chunk_invariance_witness :
    (∀ p ∈ [(['q'] : Chars), ['r', 's']], p ≠ []) ∧
      ([mkFrame ['q'] ++ (mkFrame ['r', 's']).take 3,
        (mkFrame ['r', 's']).drop 3] : List Chars).flatten
        = ([(['q'] : Chars), ['r', 's']].map mkFrame).flatten ∧
      stripBuf (run parse42 demoReq
          ([mkFrame ['q'] ++ (mkFrame ['r', 's']).take 3,
            (mkFrame ['r', 's']).drop 3].map Ev.clientData) (initState Nat))
        = stripBuf (step parse42 demoReq
            (Ev.clientData (([(['q'] : Chars), ['r', 's']].map mkFrame).flatten))
            (initState Nat)) :=
  ⟨by decide, by decide,
    ((c7_chunk_invariance parse42 demoReq [['q'], ['r', 's']]
      [mkFrame ['q'] ++ (mkFrame ['r', 's']).take 3, (mkFrame ['r', 's']).drop 3]
      (by decide) (by decide)).1).1⟩

end HHVMDebugger
